import Mathlib

/-!
Verification development for the MDP path-planning core
(`algorithms/` of the `mdp_algo` repository).

The definitions below are a shallow embedding of the Python sources:

* `algorithms/utils/consts.py`    — constants
* `algorithms/utils/enums.py`     — `Direction`
* `algorithms/utils/types.py`     — `Position` / `CellState`
* `algorithms/entities/grid.py`   — `Grid.is_within_bounds`, `Grid.is_reachable`
* `algorithms/entities/obstacle.py` — viewing-position generation
* `algorithms/pathfinding/astar.py` — kinematic A* over (x, y, heading)
* `algorithms/commands/generator.py` — command generation and compression
* `algorithms/pathfinding/hamiltonian.py` — TSP scheduler and full-path generation
* `algorithms/pathfinding/bullseye_handler.py` — two-phase recovery

Machine integers are modelled as `Int`/`Nat` (Python ints are unbounded, so no
wrap-around is needed).  Python dictionaries and sets keyed by `CellState`
(whose `__eq__`/`__hash__` use only `(x, y, direction)`) are modelled as
association lists keyed by `Pos`.  A* is written as a step function iterated
with fuel; a separate theorem shows the fuel is never exhausted.
-/

namespace MDP

/-! ### Constants (`algorithms/utils/consts.py`) -/

def GRID_SIZE : Nat := 20
def CELL_SIZE : Nat := 10
def OBSTACLE_SIZE : Nat := 10
def ROBOT_CAMERA_DISTANCE : Nat := 20
def TURN_RADIUS : Nat := 3
def EXPANDED_CELL : Int := 2
def TURN_COST : Nat := 20
def SCREENSHOT_COST : Nat := 50
def MIN_PADDING : Int := 1
def MAX_PADDING : Int := 18

/-! ### `Direction` (`algorithms/utils/enums.py`)

Values NORTH=0, EAST=2, SOUTH=4, WEST=6; `toInt` gives the numeric value used
by the `(h' - h) mod 8` arithmetic of the command generator. -/

inductive Direction where
  | NORTH
  | EAST
  | SOUTH
  | WEST
deriving DecidableEq, Fintype

def Direction.toInt : Direction → Int
  | .NORTH => 0
  | .EAST => 2
  | .SOUTH => 4
  | .WEST => 6

/-- `Direction(robot_dir) if robot_dir in [0, 2, 4, 6] else Direction.NORTH`
(used by `main.run_algorithm` and `BullseyeHandler`). -/
def directionOf (d : Int) : Direction :=
  if d = 0 then .NORTH
  else if d = 2 then .EAST
  else if d = 4 then .SOUTH
  else if d = 6 then .WEST
  else .NORTH

/-- The bare IntEnum constructor `Direction(d)`: partial, because Python
raises `ValueError` on a value outside `{0, 2, 4, 6}` (used unguarded by
`BullseyeHandler.handle` on `new_direction`). -/
def directionOf? (d : Int) : Option Direction :=
  if d = 0 then some .NORTH
  else if d = 2 then some .EAST
  else if d = 4 then some .SOUTH
  else if d = 6 then some .WEST
  else none

/-! ### `Position` / `CellState` (`algorithms/utils/types.py`)

`CellState` carries `screenshot_id` and `penalty` on top of the position, but
Python's `__eq__`/`__hash__` (inherited from `Position`) use only
`(x, y, direction)`.  `Pos` is that key triple. -/

structure Pos where
  x : Int
  y : Int
  direction : Direction
deriving DecidableEq

structure CellState where
  x : Int
  y : Int
  direction : Direction
  screenshot_id : Int := -1
  penalty : Nat := 0
deriving DecidableEq

/-- The `(x, y, direction)` triple that Python's `__eq__`/`__hash__` compare. -/
def CellState.pos (s : CellState) : Pos := ⟨s.x, s.y, s.direction⟩

/-- `get_dict` of `CellState` (JSON serialisation `{x, y, d, s}`). -/
structure PathPoint where
  x : Int
  y : Int
  d : Int
  s : Int
deriving DecidableEq

def CellState.get_dict (s : CellState) : PathPoint :=
  ⟨s.x, s.y, s.direction.toInt, s.screenshot_id⟩

/-! ### `Obstacle` (`algorithms/entities/obstacle.py`) -/

structure Obstacle where
  x : Int
  y : Int
  direction : Direction
  obstacle_id : Int
deriving DecidableEq

/-! ### `Grid` (`algorithms/entities/grid.py`) -/

structure Grid where
  obstacles : List Obstacle
deriving DecidableEq

/-- `Grid.is_within_bounds`: `MIN_PADDING <= x <= MAX_PADDING` on both axes. -/
def Grid.is_within_bounds (_g : Grid) (x y : Int) : Bool :=
  decide (MIN_PADDING ≤ x) && decide (x ≤ MAX_PADDING) &&
  decide (MIN_PADDING ≤ y) && decide (y ≤ MAX_PADDING)

/-- `Grid.is_reachable(x, y, turn=False)`: within bounds, and for every
obstacle not (`dx <= clearance and dy <= clearance`) with
`clearance = EXPANDED_CELL = 2`.  The `turn` flag is accepted but unused,
exactly as in the source. -/
def Grid.is_reachable (g : Grid) (x y : Int) (_turn : Bool := false) : Bool :=
  g.is_within_bounds x y &&
  g.obstacles.all fun o =>
    !(decide ((o.x - x).natAbs ≤ 2) && decide ((o.y - y).natAbs ≤ 2))

/-! ### Viewing-position generation (`algorithms/entities/obstacle.py`) -/

/-- The stand-off distance computation at the top of `get_viewing_positions`:
`(ROBOT_CAMERA_DISTANCE + OBSTACLE_SIZE // 2) // CELL_SIZE` clamped below by 3
when not retrying, and the unclamped quotient plus 1 when retrying. -/
def dist_cells (retrying : Bool) : Nat :=
  if !retrying then
    let d := (ROBOT_CAMERA_DISTANCE + OBSTACLE_SIZE / 2) / CELL_SIZE
    if d < 3 then 3 else d
  else
    (ROBOT_CAMERA_DISTANCE + OBSTACLE_SIZE / 2) / CELL_SIZE + 1

/-- `Obstacle.get_viewing_positions(retrying, specific_face)`: for each face,
the directly-opposite candidate at `offset_1` (penalty 0), the same-column
candidate at `offset_2` (penalty 5), then the two lateral offsets at
`offset_1` (penalty `SCREENSHOT_COST`). -/
def Obstacle.get_viewing_positions (o : Obstacle) (retrying : Bool := false)
    (specific_face : Bool := true) : List CellState :=
  let offset_1 : Int := dist_cells retrying
  let offset_2 : Int := offset_1 + 1
  let faces := if specific_face then [o.direction]
               else [.NORTH, .SOUTH, .EAST, .WEST]
  faces.flatMap fun face =>
    match face with
    | .NORTH =>
      [⟨o.x,     o.y + offset_1, .SOUTH, o.obstacle_id, 0⟩,
       ⟨o.x,     o.y + offset_2, .SOUTH, o.obstacle_id, 5⟩,
       ⟨o.x - 1, o.y + offset_1, .SOUTH, o.obstacle_id, SCREENSHOT_COST⟩,
       ⟨o.x + 1, o.y + offset_1, .SOUTH, o.obstacle_id, SCREENSHOT_COST⟩]
    | .SOUTH =>
      [⟨o.x,     o.y - offset_1, .NORTH, o.obstacle_id, 0⟩,
       ⟨o.x,     o.y - offset_2, .NORTH, o.obstacle_id, 5⟩,
       ⟨o.x - 1, o.y - offset_1, .NORTH, o.obstacle_id, SCREENSHOT_COST⟩,
       ⟨o.x + 1, o.y - offset_1, .NORTH, o.obstacle_id, SCREENSHOT_COST⟩]
    | .EAST =>
      [⟨o.x + offset_1, o.y,     .WEST, o.obstacle_id, 0⟩,
       ⟨o.x + offset_2, o.y,     .WEST, o.obstacle_id, 5⟩,
       ⟨o.x + offset_1, o.y - 1, .WEST, o.obstacle_id, SCREENSHOT_COST⟩,
       ⟨o.x + offset_1, o.y + 1, .WEST, o.obstacle_id, SCREENSHOT_COST⟩]
    | .WEST =>
      [⟨o.x - offset_1, o.y,     .EAST, o.obstacle_id, 0⟩,
       ⟨o.x - offset_2, o.y,     .EAST, o.obstacle_id, 5⟩,
       ⟨o.x - offset_1, o.y - 1, .EAST, o.obstacle_id, SCREENSHOT_COST⟩,
       ⟨o.x - offset_1, o.y + 1, .EAST, o.obstacle_id, SCREENSHOT_COST⟩]

/-- `Obstacle.get_valid_viewing_positions`: filter by `grid.is_reachable`. -/
def Obstacle.get_valid_viewing_positions (o : Obstacle) (grid : Grid)
    (retrying : Bool := false) (specific_face : Bool := true) : List CellState :=
  (o.get_viewing_positions retrying specific_face).filter fun p =>
    grid.is_reachable p.x p.y

/-! ### Kinematic A* (`algorithms/pathfinding/astar.py`)

Neighbours of a state are the two one-cell straight moves (forward and
backward along the heading) and the four 90° arcs FL/FR/BL/BR, each with an
endpoint reachability check and the eight-cell arc-sweep clearance check. -/

/-- Unit displacement of the current heading (the `dx, dy` assignment at the
top of `get_neighbors`). -/
def straight_step (d : Direction) : Int × Int :=
  match d with
  | .NORTH => (0, 1)
  | .SOUTH => (0, -1)
  | .EAST => (1, 0)
  | .WEST => (-1, 0)

inductive TurnType where
  | FL
  | FR
  | BL
  | BR
deriving DecidableEq

/-- The `apply_turn` tables of `AStar.get_neighbors` (r = TURN_RADIUS = 3);
dictionary keys 0/2/4/6 are NORTH/EAST/SOUTH/WEST. -/
def apply_turn (t : TurnType) (d : Direction) : Int × Int × Direction :=
  match t, d with
  | .FL, .NORTH => (-3, 3, .WEST)
  | .FL, .EAST => (3, 3, .NORTH)
  | .FL, .SOUTH => (3, -3, .EAST)
  | .FL, .WEST => (-3, -3, .SOUTH)
  | .FR, .NORTH => (3, 3, .EAST)
  | .FR, .EAST => (3, -3, .SOUTH)
  | .FR, .SOUTH => (-3, -3, .WEST)
  | .FR, .WEST => (-3, 3, .NORTH)
  | .BL, .NORTH => (-3, -3, .EAST)
  | .BL, .EAST => (-3, 3, .SOUTH)
  | .BL, .SOUTH => (3, 3, .WEST)
  | .BL, .WEST => (3, -3, .NORTH)
  | .BR, .NORTH => (3, -3, .WEST)
  | .BR, .EAST => (-3, -3, .NORTH)
  | .BR, .SOUTH => (-3, 3, .EAST)
  | .BR, .WEST => (3, 3, .SOUTH)

/-- The 16-entry arc table grouped by source heading: the `(Δx, Δy, h')`
triples of FL, FR, BL, BR for heading `d`. -/
def turn_table (d : Direction) : List (Int × Int × Direction) :=
  [apply_turn .FL d, apply_turn .FR d, apply_turn .BL d, apply_turn .BR d]

/-- The eight `check_points` of the arc-sweep clearance check, relative to the
current cell, with step signs `sx`, `sy`. -/
def sweep_points (sx sy : Int) : List (Int × Int) :=
  [(sx, 0), (0, sy),
   (sx, sy), (2 * sx, sy), (sx, 2 * sy), (2 * sx, 2 * sy),
   (2 * sx, 3 * sy), (3 * sx, 2 * sy)]

/-- The straight-movement block of `AStar.get_neighbors`: `for sign in
[1, -1]`, endpoint `(x + dx*sign, y + dy*sign)` kept when reachable, cost 1. -/
def straight_candidates (grid : Grid) (state : CellState) :
    List (CellState × Nat) :=
  ([1, -1] : List Int).filterMap fun sign =>
    let nx := state.x + (straight_step state.direction).1 * sign
    let ny := state.y + (straight_step state.direction).2 * sign
    if grid.is_reachable nx ny then
      some (⟨nx, ny, state.direction, -1, 0⟩, 1)
    else none

/-- The 90°-turn block of `AStar.get_neighbors`: for each of FL/FR/BL/BR,
check the endpoint, then the eight-cell sweep, cost `TURN_COST + r = 23`. -/
def turn_candidates (grid : Grid) (state : CellState) :
    List (CellState × Nat) :=
  ([.FL, .FR, .BL, .BR] : List TurnType).filterMap fun t =>
    let tdx := (apply_turn t state.direction).1
    let tdy := (apply_turn t state.direction).2.1
    let nd := (apply_turn t state.direction).2.2
    let nx := state.x + tdx
    let ny := state.y + tdy
    if grid.is_reachable nx ny true then
      let step_x : Int := if 0 < tdx then 1 else -1
      let step_y : Int := if 0 < tdy then 1 else -1
      if (sweep_points step_x step_y).all
          (fun p => grid.is_reachable (state.x + p.1) (state.y + p.2) true) then
        some (⟨nx, ny, nd, -1, 0⟩, TURN_COST + TURN_RADIUS)
      else none
    else none

/-- `AStar.get_neighbors`: straight moves (cost 1) followed by the four turns
(cost `TURN_COST + r = 23`), in source order. -/
def get_neighbors (grid : Grid) (state : CellState) : List (CellState × Nat) :=
  straight_candidates grid state ++ turn_candidates grid state

/-- Squared Euclidean distance used by the heuristic
(`((cx-gx)**2 + (cy-gy)**2) ** 0.5`); the square root is taken implicitly by
the exact comparison `fLt` below. -/
def heuristic2 (a b : CellState) : Nat :=
  ((a.x - b.x) * (a.x - b.x) + (a.y - b.y) * (a.y - b.y)).toNat

/-- Exact test `g1 + sqrt h1 < g2 + sqrt h2` for naturals, modelling the
float comparison of `AStarNode.__lt__` on `f_cost` values with exact real
arithmetic. -/
def fLt (g1 h1 g2 h2 : Nat) : Bool :=
  let d : Int := (g2 : Int) - (g1 : Int)
  if 0 ≤ d then
    let k : Int := (h1 : Int) - d * d - (h2 : Int)
    decide (k < 0) || decide (k * k < 4 * d * d * (h2 : Int))
  else
    let m : Int := (h2 : Int) - (h1 : Int) - d * d
    decide (0 < m) && decide (4 * d * d * (h1 : Int) < m * m)

/-- A heap entry: state, g-cost, squared heuristic, and the reversed waypoint
list from the start (modelling the `parent` chain of `AStarNode`;
`_reconstruct_path` is the final `List.reverse`). -/
structure AStarNode where
  state : CellState
  g_cost : Nat
  h2 : Nat
  rev_path : List CellState
deriving DecidableEq

/-- Pop the minimum-f element of the open list (`heapq.heappop` with
`AStarNode.__lt__` comparing `f_cost`); ties resolve to the earliest-inserted
entry. -/
def popMin : List AStarNode → Option (AStarNode × List AStarNode)
  | [] => none
  | n :: rest =>
    match popMin rest with
    | none => some (n, [])
    | some (m, rest') =>
      if fLt m.g_cost m.h2 n.g_cost n.h2 then some (m, n :: rest')
      else some (n, rest)

/-- Association-list lookup for `g_scores` (dict keyed by Python `CellState`
equality, i.e. by `Pos`). -/
def lookupG : List (Pos × Nat) → Pos → Option Nat
  | [], _ => none
  | (k, v) :: rest, p => if k = p then some v else lookupG rest p

/-- Dict update `g_scores[next_s] = tentative_g` (a cons shadows the old
binding for `lookupG`). -/
def insertG (l : List (Pos × Nat)) (p : Pos) (v : Nat) : List (Pos × Nat) :=
  (p, v) :: l

/-- The neighbour loop of `AStar.search`: skip closed states, push a node when
the state is new or its tentative g-score strictly improves. -/
def expand (goal : CellState) (cur : AStarNode) (closed : List Pos) :
    List (CellState × Nat) → Nat → List AStarNode → List (Pos × Nat) →
    List AStarNode × List (Pos × Nat)
  | [], _, opn, gs => (opn, gs)
  | (ns, c) :: rest, gcur, opn, gs =>
    if ns.pos ∈ closed then expand goal cur closed rest gcur opn gs
    else
      if (match lookupG gs ns.pos with
          | none => true
          | some old => decide (gcur + c < old)) then
        expand goal cur closed rest gcur
          (opn ++ [⟨ns, gcur + c, heuristic2 ns goal, ns :: cur.rev_path⟩])
          (insertG gs ns.pos (gcur + c))
      else expand goal cur closed rest gcur opn gs

/-- Search state: open list, closed set, g-score dict. -/
structure SState where
  opn : List AStarNode
  closed : List Pos
  g_scores : List (Pos × Nat)

/-- One iteration of the `while open_set:` loop of `AStar.search`.  `.inr` is
a return — `(path, recorded cache cost)`; empty open list returns `([], none)`
(the Python `return []`, with no cache write). -/
def searchStep (grid : Grid) (goal : CellState) (st : SState) :
    SState ⊕ (List CellState × Option Nat) :=
  match popMin st.opn with
  | none => .inr ([], none)
  | some (cur, rest) =>
    if cur.state.pos = goal.pos then
      .inr (cur.rev_path.reverse, some cur.g_cost)
    else if cur.state.pos ∈ st.closed then
      .inl ⟨rest, st.closed, st.g_scores⟩
    else
      let closed' := cur.state.pos :: st.closed
      let gcur := (lookupG st.g_scores cur.state.pos).getD 0
      let e := expand goal cur closed' (get_neighbors grid cur.state) gcur rest
        st.g_scores
      .inl ⟨e.1, closed', e.2⟩

def searchLoop (grid : Grid) (goal : CellState) :
    Nat → SState → Option (List CellState × Option Nat)
  | 0, _ => none
  | n + 1, st =>
    match searchStep grid goal st with
    | .inr r => some r
    | .inl st' => searchLoop grid goal n st'

/-- Fuel for `searchLoop`.  `search_fuel_sufficient` (claim C10) proves the
loop always returns before this bound: at most `18*18*4 + 1 = 1297` states are
ever expanded, each expansion pushes at most 6 nodes, so at most
`1 + 6*1297 = 7783` nodes are ever pushed, and every iteration pops one. -/
def SEARCH_FUEL : Nat := 10000

def initState (start goal : CellState) : SState :=
  ⟨[⟨start, 0, heuristic2 start goal, [start]⟩], [], [(start.pos, 0)]⟩

/-- `AStar.search`, returning the waypoint list and the cost recorded in
`cost_cache[(start, goal)]` (`none` when no path is found and nothing is
recorded). -/
def AStar.search (grid : Grid) (start goal : CellState) :
    List CellState × Option Nat :=
  (searchLoop grid goal SEARCH_FUEL (initState start goal)).getD ([], none)

/-! ### Command generation (`algorithms/commands/generator.py`) -/

/-- Two-digit zero-padded decimal, Python `f"{v:02d}"` for non-negative `v`. -/
def format2 (n : Nat) : String :=
  if n < 10 then "0" ++ toString n else toString n

/-- Model of Python `int(...)` on decimal digit strings: the same digit fold
as `String.toNat?`, written structurally over the character list so that it
evaluates by kernel reduction. -/
def strToNat? (s : String) : Option Nat :=
  if s.data ≠ [] ∧ s.data.all (·.isDigit) then
    some (s.data.foldl (fun n c => n * 10 + (c.toNat - '0'.toNat)) 0)
  else none

/-- The `parse` helper of `compress_commands`: `("FW"/"BW", value)` for
straight tokens (Python `c[:2], int(c[2:])`), `(c, 0)` otherwise.
`c.startswith("FW")` is `c[:2] == "FW"`, modelled with `String.take`. -/
def parse (c : String) : String × Nat :=
  if c.take 2 = "FW" || c.take 2 = "BW" then
    (c.take 2, (strToNat? (c.drop 2)).getD 0)
  else (c, 0)

/-- The chunk-splitting loop of `compress_commands` (emit `k ++ "90"` while
the accumulated value exceeds 90, then the zero-padded non-zero remainder),
written with explicit fuel — each iteration subtracts at least 90, so fuel
`v` suffices; `flushChunks_eq` recovers the loop-shaped unfolding. -/
def flushChunksGo (k : String) : Nat → Nat → List String
  | 0, v => if 0 < v then [k ++ format2 v] else []
  | fuel + 1, v =>
    if 90 < v then (k ++ "90") :: flushChunksGo k fuel (v - 90)
    else if 0 < v then [k ++ format2 v] else []

def flushChunks (k : String) (v : Nat) : List String :=
  flushChunksGo k v v

/-- Flushing the previous token: straight kinds flush their accumulated
chunks, anything else is emitted verbatim. -/
def flushPrev (prev : String) (acc : Nat) : List String :=
  if (parse prev).1 = "FW" || (parse prev).1 = "BW" then
    flushChunks (parse prev).1 acc
  else [prev]

/-- The body of the `compress_commands` loop: `prev` is `commands[i-1]`,
`acc` is `curr_val`.  A token merges when its parse type equals the previous
token's parse type and its value is positive; otherwise the previous run is
flushed. -/
def compressGo (prev : String) (acc : Nat) : List String → List String
  | [] => flushPrev prev acc
  | c :: rest =>
    if (parse c).1 = (parse prev).1 ∧ 0 < (parse c).2 then
      compressGo c (acc + (parse c).2) rest
    else flushPrev prev acc ++ compressGo c (parse c).2 rest

/-- `CommandGenerator.compress_commands`. -/
def compress_commands : List String → List String
  | [] => []
  | c :: rest => compressGo c (parse c).2 rest

/-- The straight/turn/snapshot emission for one waypoint pair of
`CommandGenerator.generate_commands`. -/
def pair_commands (prev curr : CellState) : List String :=
  let snap :=
    if curr.screenshot_id ≠ -1 then ["SP" ++ toString curr.screenshot_id]
    else []
  if prev.direction = curr.direction then
    let dist := max (curr.x - prev.x).natAbs (curr.y - prev.y).natAbs * 10
    if dist = 0 then []
    else
      let is_forward :=
        (prev.direction = .NORTH ∧ prev.y < curr.y) ∨
        (prev.direction = .SOUTH ∧ curr.y < prev.y) ∨
        (prev.direction = .EAST ∧ prev.x < curr.x) ∨
        (prev.direction = .WEST ∧ curr.x < prev.x)
      (if is_forward then ["FW10"] else ["BW10"]) ++ snap
  else
    let diff := (curr.direction.toInt - prev.direction.toInt).emod 8
    (if diff = 2 then ["FR90"]
     else if diff = 6 then ["FL90"]
     else if diff = 4 then ["FR90", "FR90"]
     else []) ++ snap

/-- `CommandGenerator.generate_commands`: walk consecutive waypoint pairs,
append `FIN`, then compress. -/
def generate_commands (path : List CellState) : List String :=
  let rec walk : CellState → List CellState → List String
    | _, [] => []
    | prev, curr :: rest => pair_commands prev curr ++ walk curr rest
  let raw := (match path with
    | [] => []
    | p0 :: rest => walk p0 rest) ++ ["FIN"]
  compress_commands raw

/-! ### Command replay (spec section 8, invariant 6)

Modelled from the spec: the repository contains no tape executor (the STM
motor controller replays the tape physically), so replay semantics follow the
spec's command grammar (section 6) and arc tables (section 4.3): `FWnn`/`BWnn`
move `nn` centimetres (`nn/10` cells) along/against the heading, `FL90`/`FR90`
apply the forward-left/forward-right arc table, `SP<id>` records a snapshot,
`FIN` ends the tape, anything else is a no-op. -/
def replayCmd (p : Pos) (c : String) : Pos × Option Int :=
  if c.take 2 = "FW" then
    let cells : Int := ((strToNat? (c.drop 2)).getD 0 : Nat) / 10
    let (dx, dy) := straight_step p.direction
    (⟨p.x + dx * cells, p.y + dy * cells, p.direction⟩, none)
  else if c.take 2 = "BW" then
    let cells : Int := ((strToNat? (c.drop 2)).getD 0 : Nat) / 10
    let (dx, dy) := straight_step p.direction
    (⟨p.x - dx * cells, p.y - dy * cells, p.direction⟩, none)
  else if c = "FL90" then
    let (dx, dy, nd) := apply_turn .FL p.direction
    (⟨p.x + dx, p.y + dy, nd⟩, none)
  else if c = "FR90" then
    let (dx, dy, nd) := apply_turn .FR p.direction
    (⟨p.x + dx, p.y + dy, nd⟩, none)
  else if c.take 2 = "SP" then
    (p, some ((strToNat? (c.drop 2)).getD 0 : Nat))
  else (p, none)

/-- Modelled from the spec: replay a command tape from a pose, producing the
final pose and the ordered snapshot-id sequence. -/
def replay (p : Pos) : List String → Pos × List Int
  | [] => (p, [])
  | c :: rest =>
    if c = "FIN" then (p, [])
    else
      let (p', s) := replayCmd p c
      let (pf, snaps) := replay p' rest
      (pf, s.toList ++ snaps)

/-! ### Hamiltonian scheduler (`algorithms/pathfinding/hamiltonian.py`) -/

/-- Default `CellState` used for out-of-range list indexing (never reached on
the inputs the source handles). -/
def defaultCell : CellState := ⟨0, 0, .NORTH, -1, 0⟩

def defaultObstacle : Obstacle := ⟨0, 0, .NORTH, 0⟩

/-- The viewing-position selection of `find_optimal_order` /
`generate_full_path`: the first grid-valid candidate that A* can reach from
the start, else the first grid-valid candidate, else the `(-99, -99)`
sentinel. -/
def select_viewing_position (grid : Grid) (start : CellState) (retrying : Bool)
    (o : Obstacle) : CellState :=
  let valid := (o.get_viewing_positions retrying true).filter fun p =>
    grid.is_reachable p.x p.y
  match valid.find? (fun p => !(AStar.search grid start p).1.isEmpty) with
  | some p => p
  | none =>
    match valid with
    | [] => ⟨-99, -99, .NORTH, -1, 0⟩
    | v0 :: _ => v0

/-- The node list `[start] ++ [selected viewing position per target]`. -/
def viewing_positions (grid : Grid) (start : CellState) (retrying : Bool)
    (targets : List Obstacle) : List CellState :=
  start :: targets.map (select_viewing_position grid start retrying)

/-- `HamiltonianSolver.generate_cost_matrix`: diagonal 0, first column 0
(open-tour trick), `1e9` when an endpoint is the sentinel or A* finds no
path, otherwise the cached g-cost plus the target's penalty. -/
def generate_cost_matrix (grid : Grid) (positions : List CellState) :
    List (List Nat) :=
  (List.range positions.length).map fun i =>
    (List.range positions.length).map fun j =>
      if i = j then 0
      else if j = 0 then 0
      else
        let pi := positions.getD i defaultCell
        let pj := positions.getD j defaultCell
        if pi.x = -99 ∨ pj.x = -99 then 10 ^ 9
        else
          let (path, c) := AStar.search grid pi pj
          if path.isEmpty then 10 ^ 9 else c.getD 0 + pj.penalty

/-- All lists obtained by inserting `x` at each slot of the list. -/
def insertsEverywhere (x : Nat) : List Nat → List (List Nat)
  | [] => [[x]]
  | y :: ys => (x :: y :: ys) :: (insertsEverywhere x ys).map (y :: ·)

/-- All permutations of a list (deterministic enumeration order). -/
def permsL : List Nat → List (List Nat)
  | [] => [[]]
  | x :: xs => (permsL xs).flatMap (insertsEverywhere x)

/-- Cyclic tour cost of a permutation over a matrix (consecutive edges plus
the closing edge back to the first node). -/
def tourCost (m : List (List Nat)) (p : List Nat) : Nat :=
  let entry := fun i j => ((m.getD i []).getD j 0)
  let rec go : List Nat → Nat
    | [] => 0
    | [i] => entry i (p.headD 0)
    | i :: j :: rest => entry i j + go (j :: rest)
  go p

/-- Modelled from the spec: `python_tsp.exact.solve_tsp_dynamic_programming`
is an external library, not part of this repository.  The spec (section 4.4)
describes it as exact Held–Karp TSP over the matrix; we model it as exact
minimisation over all cyclic tours anchored at node 0, returning the first
minimal permutation and the total cyclic cost. -/
def solve_tsp_dynamic_programming (m : List (List Nat)) : List Nat × Nat :=
  let n := m.length
  let tours := (permsL ((List.range (n - 1)).map (· + 1))).map (0 :: ·)
  match tours with
  | [] => ([0], 0)
  | t0 :: rest =>
    rest.foldl
      (fun best t => if tourCost m t < tourCost m best.1 then (t, tourCost m t)
                     else best)
      (t0, tourCost m t0)

/-- `itertools.combinations` in lexicographic order. -/
def combinationsL : Nat → List Nat → List (List Nat)
  | 0, _ => [[]]
  | _ + 1, [] => []
  | k + 1, x :: xs =>
    (combinationsL k xs).map (x :: ·) ++ combinationsL (k + 1) xs

/-- Row/column submatrix extraction, `cost_matrix[np.ix_(idx, idx)]`. -/
def subMatrix (m : List (List Nat)) (idx : List Nat) : List (List Nat) :=
  idx.map fun i => idx.map fun j => (m.getD i []).getD j 0

/-- The inner combination loop of `find_optimal_order` for one subset size:
the minimal (first-encountered strict minimum) feasible tour if any
combination's TSP distance is below `1e9`. -/
def bestForSize (m : List (List Nat)) (n_targets size : Nat) :
    Option (List Nat × Nat) :=
  (combinationsL size ((List.range n_targets).map (· + 1))).foldl
    (fun best comb =>
      let subset_indices := 0 :: comb
      let (perm, dist) := solve_tsp_dynamic_programming (subMatrix m subset_indices)
      if dist < 10 ^ 9 then
        match best with
        | none => some (perm.map (subset_indices.getD · 0), dist)
        | some (_, bd) =>
          if dist < bd then some (perm.map (subset_indices.getD · 0), dist)
          else best
      else best)
    none

/-- The outer `for subset_size in range(n_targets, 0, -1)` loop: first subset
size (counting down) with a feasible tour. -/
def firstFeasible (m : List (List Nat)) (n_targets : Nat) :
    Nat → Option (List Nat × Nat)
  | 0 => none
  | size + 1 =>
    match bestForSize m n_targets (size + 1) with
    | some r => some r
    | none => firstFeasible m n_targets size

/-- Rotation of the returned permutation so index 0 leads. -/
def rotateToZero (perm : List Nat) : List Nat :=
  if perm.headD 0 = 0 then perm
  else
    let idx := perm.findIdx (· = 0)
    perm.drop idx ++ perm.take idx

/-- `HamiltonianSolver.find_optimal_order`: returns the permutation over node
indices (0 = start, i = targets[i-1]) and the total distance;
`([0], 0)` when the robot is completely boxed in. -/
def find_optimal_order (grid : Grid) (start : CellState)
    (retrying : Bool) (targets : List Obstacle) : List Nat × Nat :=
  let positions := viewing_positions grid start retrying targets
  let m := generate_cost_matrix grid positions
  match firstFeasible m targets.length targets.length with
  | none => ([0], 0)
  | some (perm, dist) => (rotateToZero perm, dist)

/-- The skipped obstacle ids of `find_optimal_order`
(`set(range(1, n+1)) - set(best_permutation)` mapped to ids). -/
def skipped_ids (perm : List Nat) (targets : List Obstacle) : List Int :=
  (((List.range targets.length).map (· + 1)).filter (· ∉ perm)).map fun i =>
    (targets.getD (i - 1) defaultObstacle).obstacle_id

/-- `full_path[-1].screenshot_id = id` (mutation of the final waypoint). -/
def setLastScreenshot : List CellState → Int → List CellState
  | [], _ => []
  | [a], i => [{ a with screenshot_id := i }]
  | a :: b :: rest, i => a :: setLastScreenshot (b :: rest) i

/-- The segment loop of `HamiltonianSolver.generate_full_path` (index `i`,
consecutive permutation pairs). -/
def fullPathGo (grid : Grid) (positions : List CellState)
    (targets : List Obstacle) : Nat → List (Nat × Nat) → List CellState →
    List CellState
  | _, [], acc => acc
  | i, (f, t) :: rest, acc =>
    if t = 0 then fullPathGo grid positions targets (i + 1) rest acc
    else
      let seg := (AStar.search grid (positions.getD f defaultCell)
        (positions.getD t defaultCell)).1
      if seg.isEmpty then fullPathGo grid positions targets (i + 1) rest acc
      else
        let acc' := if i = 0 then acc ++ seg else acc ++ seg.tail
        let acc'' :=
          if 0 < t ∧ !acc'.isEmpty then
            setLastScreenshot acc'
              ((targets.getD (t - 1) defaultObstacle).obstacle_id)
          else acc'
        fullPathGo grid positions targets (i + 1) rest acc''

/-- `HamiltonianSolver.generate_full_path`: regenerate viewing positions
(note: with the default `retrying=False`), then A*-connect consecutive
permutation entries, dropping the duplicated join waypoint after the first
segment and tagging each segment's final waypoint with the target's id. -/
def generate_full_path (grid : Grid) (start : CellState) (perm : List Nat)
    (targets : List Obstacle) : List CellState :=
  let positions := viewing_positions grid start false targets
  fullPathGo grid positions targets 0 (perm.zip perm.tail) []

/-- `main.run_algorithm` (the `plan` pipeline): build the grid, coerce the
robot heading, schedule, generate the path and the command tape.  Note the
source calls `find_optimal_order()` without forwarding `retrying`. -/
structure PlanResult where
  commands : List String
  path : List CellState
  snap_positions : List CellState
  distance : Nat
deriving DecidableEq

def run_algorithm (obstacles : List Obstacle) (robot_x robot_y robot_dir : Int)
    (_retrying : Bool) : PlanResult :=
  let grid : Grid := ⟨obstacles⟩
  let start : CellState := ⟨robot_x, robot_y, directionOf robot_dir, -1, 0⟩
  let (perm, total_cost) := find_optimal_order grid start false obstacles
  let full_path := generate_full_path grid start perm obstacles
  let cmds := generate_commands full_path
  ⟨cmds, full_path, full_path.filter (fun s => s.screenshot_id ≠ -1), total_cost⟩

/-! ### Bullseye recovery (`algorithms/pathfinding/bullseye_handler.py`) -/

/-- Replace the direction of the first obstacle with the given id
(the in-place `bullseye_obs.direction = Direction(new_direction)`). -/
def updateObstacleDirection : List Obstacle → Int → Direction → List Obstacle
  | [], _, _ => []
  | o :: rest, oid, d =>
    if o.obstacle_id = oid then { o with direction := d } :: rest
    else o :: updateObstacleDirection rest oid d

/-- `BullseyeHandler.path_to_correct_face`: for `retrying in [False, True]`,
try each grid-valid candidate of the obstacle's (already corrected) face; the
first A*-reachable one gives the resolved state, its waypoints, and its
commands with `FIN` stripped and `SP{id}` appended.  Failure returns
`(None, [], ["SNAP_FAILED{id}"])`. -/
def path_to_correct_face (grid : Grid) (o : Obstacle) (cur : CellState) :
    Option CellState × List CellState × List String :=
  let tryOne := fun (retrying : Bool) =>
    (o.get_valid_viewing_positions grid retrying true).findSome? fun cand =>
      let path := (AStar.search grid cur cand).1
      if path.isEmpty then none else some (cand, path)
  match ([false, true].findSome? tryOne) with
  | some (cand, path) =>
    let cmds := (generate_commands path).filter (· ≠ "FIN")
    (some cand, path, cmds ++ ["SP" ++ toString o.obstacle_id])
  | none => (none, [], ["SNAP_FAILED" ++ toString o.obstacle_id])

structure RerouteResult where
  commands : List String
  path : List PathPoint
  distance : Nat
deriving DecidableEq

/-- `BullseyeHandler.reroute_remaining`: empty visit list short-circuits;
otherwise re-run the scheduler from the given pose with the full collision
grid and `visit_obstacles` as SNAP targets. -/
def reroute_remaining (grid : Grid) (robot_x robot_y robot_dir : Int)
    (visit_obstacles : List Obstacle) : RerouteResult :=
  if visit_obstacles.isEmpty then ⟨["FIN"], [], 0⟩
  else
    let start : CellState := ⟨robot_x, robot_y, directionOf robot_dir, -1, 0⟩
    let (perm, total_cost) := find_optimal_order grid start false visit_obstacles
    let full_path := generate_full_path grid start perm visit_obstacles
    ⟨generate_commands full_path, full_path.map CellState.get_dict, total_cost⟩

structure BullseyeResult where
  full_path : List PathPoint
  full_commands : List String
  phase1_path : List PathPoint
  phase1_commands : List String
  phase2_path : List PathPoint
  phase2_commands : List String
  phase2_distance : Nat
  resolved_position : PathPoint
  new_direction : Int
  skipped_obstacle : Bool
deriving DecidableEq

/-- `BullseyeHandler.handle`: correct the obstacle's face, run phase 1 from
the live pose, fall back to the live pose on failure, then reroute the
remaining obstacles from the resolved pose and stitch the phases.
`ValueError` for an unknown obstacle id, and the `ValueError` that the
unguarded `Direction(new_direction)` raises on a value outside
`{0, 2, 4, 6}`, become `Except.error` (in that order, as in the source). -/
def handle (grid : Grid) (obstacle_id : Int) (new_direction : Int)
    (robot_x robot_y robot_dir : Int) (remaining_ids : List Int) :
    Except String BullseyeResult :=
  let robot_state : CellState := ⟨robot_x, robot_y, directionOf robot_dir, -1, 0⟩
  match (grid.obstacles.find? (fun o => o.obstacle_id = obstacle_id)) with
  | none => .error "Obstacle ID not found in grid."
  | some _ =>
  match directionOf? new_direction with
  | none => .error "invalid Direction value"
  | some new_dir =>
    let grid' : Grid :=
      ⟨updateObstacleDirection grid.obstacles obstacle_id new_dir⟩
    let bullseye_obs :=
      (grid'.obstacles.find? (fun o => o.obstacle_id = obstacle_id)).getD
        defaultObstacle
    let (resolved?, p1_path_seg, p1_cmds) :=
      path_to_correct_face grid' bullseye_obs robot_state
    let skipped := resolved?.isNone
    let resolved_state := resolved?.getD robot_state
    let p1_path_seg := if skipped then [robot_state] else p1_path_seg
    let visit_obstacles := remaining_ids.filterMap fun oid =>
      if oid = obstacle_id then none
      else grid'.obstacles.find? (fun o => o.obstacle_id = oid)
    let p2 := reroute_remaining grid' resolved_state.x resolved_state.y
      resolved_state.direction.toInt visit_obstacles
    let p1_dicts := p1_path_seg.map CellState.get_dict
    let combined_path :=
      if !p1_dicts.isEmpty ∧ !p2.path.isEmpty then p1_dicts ++ p2.path.tail
      else p1_dicts ++ p2.path
    .ok ⟨combined_path, p1_cmds ++ p2.commands, p1_dicts, p1_cmds, p2.path,
      p2.commands, p2.distance, resolved_state.get_dict, new_direction,
      skipped⟩

/-! ### Specification predicates used by the theorems below -/

/-- `b` is an A* neighbour of `a` (for some edge cost). -/
def EdgeOk (grid : Grid) (a b : CellState) : Prop :=
  ∃ c, (b, c) ∈ get_neighbors grid a

/-- A well-formed heap node: its reversed waypoint list starts at its own
state, ends at the search start, and every consecutive pair is an A* edge. -/
def GoodNode (grid : Grid) (start : CellState) (nd : AStarNode) : Prop :=
  nd.rev_path.head? = some nd.state ∧
  nd.rev_path.getLast? = some start ∧
  List.Chain' (fun b a => EdgeOk grid a b) nd.rev_path

/-- Every node of the open list is well-formed. -/
def OpenGood (grid : Grid) (start : CellState) (st : SState) : Prop :=
  ∀ nd ∈ st.opn, GoodNode grid start nd

/-- An edge of a returned path is kinematically legal: either a unit straight
move along the unchanged heading, or one of the 16 arc-table entries carried
at cost 23. -/
def LegalEdge (grid : Grid) (a b : CellState) : Prop :=
  (b.direction = a.direction ∧
    ((b.x - a.x, b.y - a.y) = straight_step a.direction ∨
     (b.x - a.x, b.y - a.y) =
       (-(straight_step a.direction).1, -(straight_step a.direction).2))) ∨
  ((b.x - a.x, b.y - a.y, b.direction) ∈ turn_table a.direction ∧
   (b, 23) ∈ get_neighbors grid a)

/-- The eight arc-sweep cells of the edge from `a` to `b` (step signs taken
from the edge displacement) all satisfy `is_reachable`. -/
def SweepOk (grid : Grid) (a b : CellState) : Prop :=
  (sweep_points (if 0 < b.x - a.x then 1 else -1)
      (if 0 < b.y - a.y then 1 else -1)).all
    (fun p => grid.is_reachable (a.x + p.1) (a.y + p.2) true) = true

/-- The finite set of in-bounds positions `[1,18]² × 4 headings`
(1296 elements). -/
def validFinset : Finset Pos :=
  ((Finset.Icc (1 : Int) 18) ×ˢ (Finset.Icc (1 : Int) 18) ×ˢ
    (Finset.univ : Finset Direction)).image fun p => ⟨p.1, p.2.1, p.2.2⟩

/-- Every position a search can ever hold: the start plus the in-bounds
band (at most 1297 elements). -/
def posBound (start : CellState) : Finset Pos :=
  insert start.pos validFinset

/-- The termination invariant of the A* loop: the closed list has no
duplicates and every recorded position (closed or open) lies in
`posBound start`. -/
def InvBound (start : CellState) (st : SState) : Prop :=
  st.closed.Nodup ∧ (∀ p ∈ st.closed, p ∈ posBound start) ∧
  (∀ nd ∈ st.opn, nd.state.pos ∈ posBound start)

/-- Termination measure: pops remaining.  Each iteration pops one node;
an expansion adds one closed position (of at most 1297) and at most 6 open
nodes. -/
def searchMeasure (st : SState) : Nat :=
  st.opn.length + 7 * (1297 - st.closed.length)

/-! ### Run decomposition of `compress_commands` (claim C7)

`compress_commands` is the rendering of a run decomposition: maximal groups
of same-kind positive straight tokens collapse to their summed value, other
tokens stand alone.  The definitions below make that decomposition explicit;
`compressGo_eq_render` proves the correspondence. -/

/-- A run: a straight kind with its accumulated centimetre total, or a
verbatim token. -/
inductive Rtok where
  | straight (k : String) (total : Nat)
  | verb (s : String)
deriving DecidableEq

/-- The run flushed for a previous token with accumulated value `acc`
(abstract form of `flushPrev`). -/
def emitTok (prev : String) (acc : Nat) : Rtok :=
  if (parse prev).1 = "FW" || (parse prev).1 = "BW" then
    .straight (parse prev).1 acc
  else .verb prev

/-- The run decomposition computed by the `compress_commands` loop state
machine (same branching as `compressGo`). -/
def runsGo (prev : String) (acc : Nat) : List String → List Rtok
  | [] => [emitTok prev acc]
  | c :: rest =>
    if (parse c).1 = (parse prev).1 ∧ 0 < (parse c).2 then
      runsGo c (acc + (parse c).2) rest
    else emitTok prev acc :: runsGo c (parse c).2 rest

def runs : List String → List Rtok
  | [] => []
  | c :: rest => runsGo c (parse c).2 rest

/-- Rendering a run back to command tokens. -/
def render : Rtok → List String
  | .straight k v => flushChunks k v
  | .verb s => [s]

/-- The head of the run list is not a straight run of kind `k`. -/
def notSameStraight (k : String) : List Rtok → Prop
  | .straight k' _ :: _ => k' ≠ k
  | _ => True

/-- Well-formed run lists: straight runs have kind FW/BW and positive totals,
no two adjacent straight runs share a kind, verbatim tokens are not
FW/BW-prefixed. -/
def GoodRuns : List Rtok → Prop
  | [] => True
  | .straight k t :: rest =>
    (k = "FW" ∨ k = "BW") ∧ 0 < t ∧ notSameStraight k rest ∧ GoodRuns rest
  | .verb s :: rest =>
    ¬(s.take 2 = "FW" ∨ s.take 2 = "BW") ∧ GoodRuns rest

/-- The pending token `c` does not merge into the head of the run list. -/
def Compat (c : String) : List Rtok → Prop
  | .straight k _ :: _ => (parse c).1 ≠ k
  | _ => True

/-- A well-formed command token: if it is FW/BW-prefixed, its numeric part
parses and is positive (the wire grammar has `nn := 1..90`; zero-valued
straights are the counterexample to unrestricted idempotence). -/
def WFtok (c : String) : Prop :=
  (c.take 2 = "FW" ∨ c.take 2 = "BW") →
    ((strToNat? (c.drop 2)).isSome = true ∧ 0 < (parse c).2)

def WFpos (cs : List String) : Prop := ∀ c ∈ cs, WFtok c

instance : DecidablePred WFtok := fun c => by
  unfold WFtok
  infer_instance

instance (cs : List String) : Decidable (WFpos cs) := by
  unfold WFpos
  infer_instance

/-! ## Theorems -/

/-- Bounds-and-clearance reading of `is_reachable` (shared helper). -/
theorem is_reachable_iff (g : Grid) (x y : Int) (t : Bool) :
    g.is_reachable x y t = true ↔
      (1 ≤ x ∧ x ≤ 18 ∧ 1 ≤ y ∧ y ≤ 18 ∧
       ∀ o ∈ g.obstacles, 2 < max (o.x - x).natAbs (o.y - y).natAbs) := by
  unfold Grid.is_reachable Grid.is_within_bounds
  simp only [MIN_PADDING, MAX_PADDING, Bool.and_eq_true, decide_eq_true_eq,
    List.all_eq_true, Bool.not_eq_true', Bool.and_eq_false_iff,
    decide_eq_false_iff_not, not_le]
  constructor
  · rintro ⟨⟨⟨⟨h1, h2⟩, h3⟩, h4⟩, h5⟩
    refine ⟨h1, h2, h3, h4, fun o ho => ?_⟩
    rcases h5 o ho with h | h <;> omega
  · rintro ⟨h1, h2, h3, h4, h5⟩
    refine ⟨⟨⟨⟨h1, h2⟩, h3⟩, h4⟩, fun o ho => ?_⟩
    have := h5 o ho
    omega

/-- C4.  `is_reachable(x, y, turn)` holds iff `(x, y)` lies in `[1,18]²` and
every obstacle's Chebyshev distance to `(x, y)` exceeds 2; the `turn` flag has
no behavioural effect. -/
theorem c4_is_reachable_spec :
    ∀ (g : Grid) (x y : Int) (t : Bool),
      (g.is_reachable x y t = true ↔
        (1 ≤ x ∧ x ≤ 18 ∧ 1 ≤ y ∧ y ≤ 18 ∧
         ∀ o ∈ g.obstacles, 2 < max (o.x - x).natAbs (o.y - y).natAbs)) ∧
      g.is_reachable x y t = g.is_reachable x y false := by
  intro g x y t
  exact ⟨is_reachable_iff g x y t, rfl⟩

/-- C3 counterexample.  With `retrying=True` the stand-off distance computed
by `get_viewing_positions` is 3 cells, not the claimed `d+1 = 4`: for the
obstacle at (10, 10) facing north, the first retry candidate is `(10, 13)`. -/
theorem c3_counterexample :
    dist_cells true = 3 ∧ dist_cells true ≠ 4 ∧
    (Obstacle.get_viewing_positions ⟨10, 10, .NORTH, 1⟩ true true).head? =
      some ⟨10, 13, .SOUTH, 1, 0⟩ := by
  refine ⟨rfl, by decide, rfl⟩

/-- C3 (amended).  For both values of `retrying` the stand-off distance is 3
cells (`max(3, 25/10) = 3` without retrying, `25/10 + 1 = 3` with), and the
first candidate for each face sits 3 cells from the obstacle. -/
theorem c3_standoff :
    ∀ (o : Obstacle) (r : Bool),
      dist_cells r = 3 ∧
      (o.get_viewing_positions r true).head? = some (match o.direction with
        | .NORTH => ⟨o.x, o.y + 3, .SOUTH, o.obstacle_id, 0⟩
        | .SOUTH => ⟨o.x, o.y - 3, .NORTH, o.obstacle_id, 0⟩
        | .EAST => ⟨o.x + 3, o.y, .WEST, o.obstacle_id, 0⟩
        | .WEST => ⟨o.x - 3, o.y, .EAST, o.obstacle_id, 0⟩) := by
  intro o r
  obtain ⟨x, y, d, i⟩ := o
  cases r <;> cases d <;>
    simp [Obstacle.get_viewing_positions, dist_cells, ROBOT_CAMERA_DISTANCE,
      OBSTACLE_SIZE, CELL_SIZE]

/-- C1 (code bug).  On the obstacle-free grid, `AStar.search` from
`(10, 10, N)` to `(7, 7, E)` returns the single backward-left arc edge
(cost 23), the command generator encodes that edge as `FR90` (the forward
right arc), and replaying the tape from the start pose lands at
`(13, 13, E)` — not at the path's final waypoint `(7, 7, E)`. -/
theorem c1_roundtrip_bug :
    AStar.search ⟨[]⟩ ⟨10, 10, .NORTH, -1, 0⟩ ⟨7, 7, .EAST, -1, 0⟩ =
      ([⟨10, 10, .NORTH, -1, 0⟩, ⟨7, 7, .EAST, -1, 0⟩], some 23) ∧
    generate_commands [⟨10, 10, .NORTH, -1, 0⟩, ⟨7, 7, .EAST, -1, 0⟩] =
      ["FR90", "FIN"] ∧
    replay ⟨10, 10, .NORTH⟩ ["FR90", "FIN"] = (⟨13, 13, .EAST⟩, []) ∧
    (⟨13, 13, .EAST⟩ : Pos) ≠ ⟨7, 7, .EAST⟩ := by
  exact ⟨rfl, rfl, rfl, by decide⟩

/-- C6 (code bug).  Obstacles 1 at (14,12,N) and 2 at (15,12,N) both select
the viewing position (14,15,S) (obstacle 3's candidates are all out of
bounds, and obstacle 3 boxes in obstacle 2's own candidates); with the robot
starting at (14,15,S), the schedule visits both, but the zero-length segment
between their coinciding viewing positions overwrites obstacle 1's snapshot
tag: the returned path is `[(14,15,S, snap=2)]`, so id 1 — which is not in
the skipped set `[3]` — appears zero times. -/
theorem c6_coverage_bug :
    (find_optimal_order ⟨[⟨14, 12, .NORTH, 1⟩, ⟨15, 12, .NORTH, 2⟩,
        ⟨17, 15, .EAST, 3⟩]⟩ ⟨14, 15, .SOUTH, -1, 0⟩ false
        [⟨14, 12, .NORTH, 1⟩, ⟨15, 12, .NORTH, 2⟩, ⟨17, 15, .EAST, 3⟩]).1 =
      [0, 1, 2] ∧
    skipped_ids [0, 1, 2]
        [⟨14, 12, .NORTH, 1⟩, ⟨15, 12, .NORTH, 2⟩, ⟨17, 15, .EAST, 3⟩] =
      [3] ∧
    (run_algorithm [⟨14, 12, .NORTH, 1⟩, ⟨15, 12, .NORTH, 2⟩,
        ⟨17, 15, .EAST, 3⟩] 14 15 4 false).path = [⟨14, 15, .SOUTH, 2, 0⟩] ∧
    ((run_algorithm [⟨14, 12, .NORTH, 1⟩, ⟨15, 12, .NORTH, 2⟩,
        ⟨17, 15, .EAST, 3⟩] 14 15 4 false).path.filter
        (fun s => s.screenshot_id = 1)).length = 0 ∧
    (1 : Int) ∉ skipped_ids [0, 1, 2]
        [⟨14, 12, .NORTH, 1⟩, ⟨15, 12, .NORTH, 2⟩, ⟨17, 15, .EAST, 3⟩] := by
  exact ⟨rfl, rfl, rfl, rfl, by decide⟩

/-! ### Lemmas about the open list and the neighbour generator -/

theorem popMin_mem : ∀ {l : List AStarNode} {m : AStarNode}
    {r : List AStarNode}, popMin l = some (m, r) → m ∈ l ∧ r ⊆ l ∧
      r.length + 1 = l.length := by
  intro l
  induction l with
  | nil => intro m r h; simp [popMin] at h
  | cons n rest ih =>
    intro m r h
    simp only [popMin] at h
    cases hrec : popMin rest with
    | none =>
      rw [hrec] at h
      have hnil : rest = [] := by
        cases rest with
        | nil => rfl
        | cons a t =>
          exfalso
          simp only [popMin] at hrec
          cases h2 : popMin t with
          | none => rw [h2] at hrec; simp at hrec
          | some p =>
            rw [h2] at hrec
            obtain ⟨m', r'⟩ := p
            by_cases hf : fLt m'.g_cost m'.h2 a.g_cost a.h2 <;>
              simp [hf] at hrec
      subst hnil
      simp at h
      obtain ⟨hm, hr⟩ := h
      subst hm; subst hr
      simp
    | some p =>
      rw [hrec] at h
      obtain ⟨m', r'⟩ := p
      obtain ⟨hmem, hsub, hlen⟩ := ih hrec
      by_cases hf : fLt m'.g_cost m'.h2 n.g_cost n.h2
      · simp only [hf, if_true] at h
        injection h with h
        injection h with h1 h2
        subst h1; subst h2
        refine ⟨List.mem_cons_of_mem _ hmem, ?_, by simp [← hlen]⟩
        intro x hx
        rcases List.mem_cons.mp hx with hx | hx
        · exact hx ▸ List.mem_cons_self _ _
        · exact List.mem_cons_of_mem _ (hsub hx)
      · simp only [hf, if_false] at h
        injection h with h
        injection h with h1 h2
        subst h1; subst h2
        exact ⟨List.mem_cons_self _ _, fun x hx => List.mem_cons_of_mem _ hx,
          by simp⟩

theorem popMin_none {l : List AStarNode} (h : popMin l = none) : l = [] := by
  cases l with
  | nil => rfl
  | cons n rest =>
    exfalso
    simp only [popMin] at h
    cases h2 : popMin rest with
    | none => rw [h2] at h; simp at h
    | some p =>
      rw [h2] at h
      obtain ⟨m', r'⟩ := p
      by_cases hf : fLt m'.g_cost m'.h2 n.g_cost n.h2 <;> simp [hf] at h

/-- Everything `get_neighbors` returns: the endpoint passes `is_reachable`,
and the edge is either a unit straight move (cost 1, heading preserved) or an
arc-table turn (cost 23) whose eight sweep cells all pass `is_reachable`. -/
theorem get_neighbors_spec {g : Grid} {s b : CellState} {c : Nat}
    (h : (b, c) ∈ get_neighbors g s) :
    g.is_reachable b.x b.y = true ∧ b.screenshot_id = -1 ∧ b.penalty = 0 ∧
    ((b.direction = s.direction ∧ c = 1 ∧
       ((b.x - s.x, b.y - s.y) = straight_step s.direction ∨
        (b.x - s.x, b.y - s.y) =
          (-(straight_step s.direction).1, -(straight_step s.direction).2))) ∨
     ((b.x - s.x, b.y - s.y, b.direction) ∈ turn_table s.direction ∧ c = 23 ∧
       (sweep_points (if 0 < b.x - s.x then 1 else -1)
           (if 0 < b.y - s.y then 1 else -1)).all
         (fun p => g.is_reachable (s.x + p.1) (s.y + p.2) true) = true)) := by
  rw [get_neighbors, List.mem_append] at h
  rcases hss : straight_step s.direction with ⟨dx, dy⟩
  rcases h with h | h
  · simp only [straight_candidates, hss, List.mem_filterMap, List.mem_cons,
      List.not_mem_nil, or_false] at h
    obtain ⟨sign, hsign, heq⟩ := h
    by_cases hreach : g.is_reachable (s.x + dx * sign) (s.y + dy * sign) = true
    · rw [if_pos hreach] at heq
      simp only [Option.some.injEq, Prod.mk.injEq] at heq
      obtain ⟨hb, hc⟩ := heq
      subst hb; subst hc
      refine ⟨hreach, rfl, rfl, Or.inl ⟨rfl, rfl, ?_⟩⟩
      rcases hsign with hsign | hsign <;> subst hsign
      · left
        simp only [Prod.mk.injEq]
        constructor <;> ring
      · right
        simp only [Prod.mk.injEq]
        constructor <;> ring
    · rw [if_neg hreach] at heq
      simp at heq
  · simp only [turn_candidates, List.mem_filterMap, List.mem_cons,
      List.not_mem_nil, or_false] at h
    obtain ⟨t, ht, heq⟩ := h
    rcases hat : apply_turn t s.direction with ⟨tdx, tdy, nd⟩
    simp only [hat] at heq
    by_cases hreach : g.is_reachable (s.x + tdx) (s.y + tdy) true = true
    · rw [if_pos hreach] at heq
      by_cases hsweep : ((sweep_points (if 0 < tdx then 1 else -1)
          (if 0 < tdy then 1 else -1)).all
          (fun p => g.is_reachable (s.x + p.1) (s.y + p.2) true)) = true
      · rw [if_pos hsweep] at heq
        simp only [Option.some.injEq, Prod.mk.injEq] at heq
        obtain ⟨hb, hc⟩ := heq
        subst hb; subst hc
        have hdx : s.x + tdx - s.x = tdx := by ring
        have hdy : s.y + tdy - s.y = tdy := by ring
        refine ⟨hreach, rfl, rfl, Or.inr ⟨?_, rfl, ?_⟩⟩
        · simp only [hdx, hdy]
          rw [← hat]
          unfold turn_table
          rcases ht with ht | ht | ht | ht <;> subst ht <;> simp
        · simp only [hdx, hdy]
          exact hsweep
      · rw [if_neg hsweep] at heq
        simp at heq
    · rw [if_neg hreach] at heq
      simp at heq

/-- `get_neighbors` produces at most 6 candidates. -/
theorem get_neighbors_length_le (g : Grid) (s : CellState) :
    (get_neighbors g s).length ≤ 6 := by
  rw [get_neighbors, List.length_append]
  have e1 : (straight_candidates g s).length ≤ 2 := by
    unfold straight_candidates
    exact List.length_filterMap_le _ _
  have e2 : (turn_candidates g s).length ≤ 4 := by
    unfold turn_candidates
    exact List.length_filterMap_le _ _
  omega

/-! ### The neighbour loop and the open-list invariant -/

theorem expand_mem {goal : CellState} {cur : AStarNode} {closed : List Pos} :
    ∀ {l : List (CellState × Nat)} {gcur : Nat} {opn : List AStarNode}
      {gs : List (Pos × Nat)} {nd : AStarNode},
      nd ∈ (expand goal cur closed l gcur opn gs).1 →
      nd ∈ opn ∨ ∃ ns c, (ns, c) ∈ l ∧
        nd = ⟨ns, gcur + c, heuristic2 ns goal, ns :: cur.rev_path⟩ := by
  intro l
  induction l with
  | nil =>
    intro gcur opn gs nd h
    exact Or.inl h
  | cons hd tl ih =>
    intro gcur opn gs nd h
    obtain ⟨ns, c⟩ := hd
    rw [expand] at h
    split at h
    · rcases ih h with h' | ⟨ns', c', hm, he⟩
      · exact Or.inl h'
      · exact Or.inr ⟨ns', c', List.mem_cons_of_mem _ hm, he⟩
    · split at h
      · rcases ih h with h' | ⟨ns', c', hm, he⟩
        · rcases List.mem_append.mp h' with h'' | h''
          · exact Or.inl h''
          · refine Or.inr ⟨ns, c, List.mem_cons_self _ _, ?_⟩
            simpa using h''
        · exact Or.inr ⟨ns', c', List.mem_cons_of_mem _ hm, he⟩
      · rcases ih h with h' | ⟨ns', c', hm, he⟩
        · exact Or.inl h'
        · exact Or.inr ⟨ns', c', List.mem_cons_of_mem _ hm, he⟩

theorem expand_length {goal : CellState} {cur : AStarNode} {closed : List Pos} :
    ∀ {l : List (CellState × Nat)} {gcur : Nat} {opn : List AStarNode}
      {gs : List (Pos × Nat)},
      (expand goal cur closed l gcur opn gs).1.length ≤ opn.length + l.length := by
  intro l
  induction l with
  | nil =>
    intro gcur opn gs
    simp [expand]
  | cons hd tl ih =>
    intro gcur opn gs
    obtain ⟨ns, c⟩ := hd
    rw [expand]
    split
    · refine le_trans ih ?_
      simp only [List.length_cons]
      omega
    · split
      · refine le_trans ih ?_
        simp only [List.length_append, List.length_cons, List.length_nil]
        omega
      · refine le_trans ih ?_
        simp only [List.length_cons]
        omega

/-- Unfolding `searchStep` once the popped node is known. -/
theorem searchStep_none {grid : Grid} {goal : CellState} {st : SState}
    (h : popMin st.opn = none) : searchStep grid goal st = .inr ([], none) := by
  unfold searchStep
  rw [h]

theorem searchStep_some {grid : Grid} {goal : CellState} {st : SState}
    {cur : AStarNode} {rest : List AStarNode}
    (h : popMin st.opn = some (cur, rest)) :
    searchStep grid goal st =
      (if cur.state.pos = goal.pos then
        .inr (cur.rev_path.reverse, some cur.g_cost)
      else if cur.state.pos ∈ st.closed then
        .inl ⟨rest, st.closed, st.g_scores⟩
      else
        .inl ⟨(expand goal cur (cur.state.pos :: st.closed)
            (get_neighbors grid cur.state)
            ((lookupG st.g_scores cur.state.pos).getD 0) rest st.g_scores).1,
          cur.state.pos :: st.closed,
          (expand goal cur (cur.state.pos :: st.closed)
            (get_neighbors grid cur.state)
            ((lookupG st.g_scores cur.state.pos).getD 0) rest
            st.g_scores).2⟩) := by
  unfold searchStep
  rw [h]

/-- A popped goal node yields a well-formed returned path; otherwise one step
preserves the open-list invariant. -/
theorem searchStep_inl_good {grid : Grid} {start goal : CellState}
    {st st' : SState} (hg : OpenGood grid start st)
    (h : searchStep grid goal st = .inl st') : OpenGood grid start st' := by
  cases hpop : popMin st.opn with
  | none => rw [searchStep_none hpop] at h; simp at h
  | some p =>
    obtain ⟨cur, rest⟩ := p
    rw [searchStep_some hpop] at h
    obtain ⟨hcur_mem, hrest_sub, _⟩ := popMin_mem hpop
    by_cases hgoal : cur.state.pos = goal.pos
    · rw [if_pos hgoal] at h; simp at h
    · rw [if_neg hgoal] at h
      by_cases hclosed : cur.state.pos ∈ st.closed
      · rw [if_pos hclosed] at h
        injection h with h
        subst h
        intro nd hnd
        exact hg nd (hrest_sub hnd)
      · rw [if_neg hclosed] at h
        injection h with h
        subst h
        intro nd hnd
        simp only at hnd
        rcases expand_mem hnd with hnd' | ⟨ns, c, hmem, he⟩
        · exact hg nd (hrest_sub hnd')
        · subst he
          obtain ⟨hhead, hlast, hchain⟩ := hg cur hcur_mem
          cases hrev : cur.rev_path with
          | nil => rw [hrev] at hhead; simp at hhead
          | cons p0 prest =>
            rw [hrev] at hhead
            simp only [List.head?_cons, Option.some.injEq] at hhead
            refine ⟨by simp, ?_, ?_⟩
            · rw [hrev] at hlast
              simp only [hrev, List.getLast?_cons_cons]
              exact hlast
            · simp only [hrev]
              rw [List.chain'_cons]
              rw [hrev] at hchain
              exact ⟨hhead ▸ ⟨c, hmem⟩, hchain⟩

theorem searchStep_inr_good {grid : Grid} {start goal : CellState}
    {st : SState} {res : List CellState × Option Nat}
    (hg : OpenGood grid start st)
    (h : searchStep grid goal st = .inr res) :
    res.1 = [] ∨ (res.1.head? = some start ∧
      List.Chain' (EdgeOk grid) res.1) := by
  cases hpop : popMin st.opn with
  | none =>
    rw [searchStep_none hpop] at h
    injection h with h
    subst h
    exact Or.inl rfl
  | some p =>
    obtain ⟨cur, rest⟩ := p
    rw [searchStep_some hpop] at h
    obtain ⟨hcur_mem, _, _⟩ := popMin_mem hpop
    by_cases hgoal : cur.state.pos = goal.pos
    · rw [if_pos hgoal] at h
      injection h with h
      subst h
      obtain ⟨hhead, hlast, hchain⟩ := hg cur hcur_mem
      refine Or.inr ⟨?_, ?_⟩
      · rw [List.head?_reverse]
        exact hlast
      · exact List.chain'_reverse.mpr hchain
    · rw [if_neg hgoal] at h
      by_cases hclosed : cur.state.pos ∈ st.closed
      · rw [if_pos hclosed] at h; simp at h
      · rw [if_neg hclosed] at h; simp at h

theorem searchLoop_good {grid : Grid} {start goal : CellState} :
    ∀ {fuel : Nat} {st : SState} {res : List CellState × Option Nat},
      OpenGood grid start st →
      searchLoop grid goal fuel st = some res →
      res.1 = [] ∨ (res.1.head? = some start ∧
        List.Chain' (EdgeOk grid) res.1) := by
  intro fuel
  induction fuel with
  | zero => intro st res _ h; simp [searchLoop] at h
  | succ n ih =>
    intro st res hg h
    rw [searchLoop] at h
    cases hstep : searchStep grid goal st with
    | inr r =>
      rw [hstep] at h
      injection h with h
      subst h
      exact searchStep_inr_good hg hstep
    | inl st' =>
      rw [hstep] at h
      exact ih (searchStep_inl_good hg hstep) h

/-- The result of `AStar.search` is empty or a chain of A* edges starting at
the start state. -/
theorem search_good (grid : Grid) (start goal : CellState) :
    (AStar.search grid start goal).1 = [] ∨
    ((AStar.search grid start goal).1.head? = some start ∧
      List.Chain' (EdgeOk grid) (AStar.search grid start goal).1) := by
  unfold AStar.search
  cases hloop : searchLoop grid goal SEARCH_FUEL (initState start goal) with
  | none => simp
  | some res =>
    simp only [Option.getD_some]
    refine searchLoop_good ?_ hloop
    intro nd hnd
    simp only [initState, List.mem_singleton] at hnd
    subst hnd
    exact ⟨rfl, rfl, List.chain'_singleton _⟩

/-- Every element of a chain with known head is the head or an edge target. -/
theorem chain'_head_mem {α : Type} {R : α → α → Prop} :
    ∀ {l : List α} {s : α}, l.head? = some s → List.Chain' R l →
      ∀ w ∈ l, w = s ∨ ∃ a, R a w := by
  intro l
  induction l with
  | nil => intro s h _ w hw; simp at hw
  | cons a t ih =>
    intro s hh hc w hw
    simp only [List.head?_cons, Option.some.injEq] at hh
    subst hh
    rcases List.mem_cons.mp hw with hw | hw
    · exact Or.inl hw
    · cases t with
      | nil => simp at hw
      | cons b t' =>
        rw [List.chain'_cons] at hc
        rcases ih rfl hc.2 w hw with hw' | hw'
        · exact Or.inr ⟨a, hw' ▸ hc.1⟩
        · exact Or.inr hw'

/-- C5.  Kinematic legality: every pair of consecutive waypoints of a
returned path is either a one-cell straight move along the unchanged heading
axis, or matches one of the 16 FL/FR/BL/BR arc-table entries for the source
heading and is carried by an A* edge of cost 23. -/
theorem c5_kinematic_legality :
    ∀ (grid : Grid) (start goal : CellState),
      List.Chain' (LegalEdge grid) (AStar.search grid start goal).1 := by
  intro grid start goal
  rcases search_good grid start goal with h | ⟨_, hchain⟩
  · rw [h]
    exact List.chain'_nil
  · refine List.Chain'.imp ?_ hchain
    rintro a b ⟨c, hmem⟩
    rcases get_neighbors_spec hmem with ⟨_, _, _, hcase⟩
    rcases hcase with ⟨hdir, _, hdelta⟩ | ⟨htable, hc, _⟩
    · exact Or.inl ⟨hdir, hdelta⟩
    · exact Or.inr ⟨htable, hc ▸ hmem⟩

/-- C2.  Containment, clearance and arc-sweep safety: given a reachable start
pose, every waypoint of a returned path lies in `[1,18]²` with Chebyshev
distance strictly greater than 2 to every obstacle, and every
heading-changing edge satisfies the eight-cell arc-sweep check. -/
theorem c2_path_invariants (grid : Grid) (start goal : CellState)
    (h : grid.is_reachable start.x start.y = true) :
    (∀ w ∈ (AStar.search grid start goal).1,
      (1 ≤ w.x ∧ w.x ≤ 18 ∧ 1 ≤ w.y ∧ w.y ≤ 18) ∧
      ∀ o ∈ grid.obstacles, 2 < max (o.x - w.x).natAbs (o.y - w.y).natAbs) ∧
    List.Chain' (fun a b => a.direction ≠ b.direction → SweepOk grid a b)
      (AStar.search grid start goal).1 := by
  constructor
  · intro w hw
    have hreach : grid.is_reachable w.x w.y = true := by
      rcases search_good grid start goal with hemp | ⟨hhead, hchain⟩
      · rw [hemp] at hw
        simp at hw
      · rcases chain'_head_mem hhead hchain w hw with hws | ⟨a, ⟨c, hmem⟩⟩
        · subst hws
          exact h
        · exact (get_neighbors_spec hmem).1
    have := (is_reachable_iff grid w.x w.y false).mp hreach
    exact ⟨⟨this.1, this.2.1, this.2.2.1, this.2.2.2.1⟩, this.2.2.2.2⟩
  · rcases search_good grid start goal with hemp | ⟨_, hchain⟩
    · rw [hemp]
      exact List.chain'_nil
    · refine List.Chain'.imp ?_ hchain
      rintro a b ⟨c, hmem⟩ hdir
      rcases get_neighbors_spec hmem with ⟨_, _, _, hcase⟩
      rcases hcase with ⟨hdir', _, _⟩ | ⟨_, _, hsweep⟩
      · exact absurd hdir'.symm hdir
      · exact hsweep

/-- C2 witness: on the obstacle-free grid from the reachable start
`(5, 5, N)` to `(5, 7, N)`. -/
theorem c2_path_invariants_witness :
    (∀ w ∈ (AStar.search ⟨[]⟩ ⟨5, 5, .NORTH, -1, 0⟩ ⟨5, 7, .NORTH, -1, 0⟩).1,
      (1 ≤ w.x ∧ w.x ≤ 18 ∧ 1 ≤ w.y ∧ w.y ≤ 18) ∧
      ∀ o ∈ (⟨[]⟩ : Grid).obstacles,
        2 < max (o.x - w.x).natAbs (o.y - w.y).natAbs) ∧
    List.Chain' (fun a b => a.direction ≠ b.direction → SweepOk ⟨[]⟩ a b)
      (AStar.search ⟨[]⟩ ⟨5, 5, .NORTH, -1, 0⟩ ⟨5, 7, .NORTH, -1, 0⟩).1 :=
  c2_path_invariants ⟨[]⟩ ⟨5, 5, .NORTH, -1, 0⟩ ⟨5, 7, .NORTH, -1, 0⟩
    (by decide)

/-- C9.  When start and goal agree on `(x, y, heading)`, the goal test fires
on the first pop, before any reachability check: the result is the
single-waypoint path `[start]` with cost 0 recorded in the cost cache, even
for out-of-bounds or clearance-violating cells. -/
theorem c9_goal_test_first :
    ∀ (grid : Grid) (s g : CellState), s.pos = g.pos →
      AStar.search grid s g = ([s], some 0) := by
  intro grid s g hpos
  unfold AStar.search
  rw [show SEARCH_FUEL = 9999 + 1 from rfl, searchLoop]
  simp [searchStep, initState, popMin, hpos]

/-- C9 witness: the cell `(25, -3, N)` is out of bounds and coincides with an
obstacle, yet searching from it to itself (with different snapshot/penalty
metadata on the goal) returns `([start], cost 0)`. -/
theorem c9_goal_test_first_witness :
    AStar.search ⟨[⟨25, -3, .NORTH, 9⟩]⟩ ⟨25, -3, .NORTH, -1, 0⟩
      ⟨25, -3, .NORTH, 4, 2⟩ = ([⟨25, -3, .NORTH, -1, 0⟩], some 0) :=
  c9_goal_test_first ⟨[⟨25, -3, .NORTH, 9⟩]⟩ ⟨25, -3, .NORTH, -1, 0⟩
    ⟨25, -3, .NORTH, 4, 2⟩ (by decide)

/-! ### Termination of the search loop (claim C10) -/

theorem mem_validFinset {p : Pos} :
    p ∈ validFinset ↔ (1 ≤ p.x ∧ p.x ≤ 18 ∧ 1 ≤ p.y ∧ p.y ≤ 18) := by
  unfold validFinset
  simp only [Finset.mem_image, Finset.mem_product, Finset.mem_Icc,
    Finset.mem_univ, and_true]
  constructor
  · rintro ⟨⟨a, b, c⟩, ⟨⟨ha1, ha2⟩, hb1, hb2⟩, heq⟩
    subst heq
    exact ⟨ha1, ha2, hb1, hb2⟩
  · rintro ⟨h1, h2, h3, h4⟩
    exact ⟨(p.x, p.y, p.direction), ⟨⟨h1, h2⟩, h3, h4⟩, by cases p; rfl⟩

theorem validFinset_card_le : validFinset.card ≤ 1296 := by
  refine le_trans Finset.card_image_le ?_
  rw [Finset.card_product, Finset.card_product, Int.card_Icc]
  simp only [Finset.card_univ]
  decide

theorem posBound_card_le (start : CellState) : (posBound start).card ≤ 1297 := by
  refine le_trans (Finset.card_insert_le _ _) ?_
  have := validFinset_card_le
  omega

theorem nodup_length_le {l : List Pos} {S : Finset Pos} (hn : l.Nodup)
    (hs : ∀ p ∈ l, p ∈ S) : l.length ≤ S.card := by
  classical
  have h1 : l.toFinset.card = l.length := List.toFinset_card_of_nodup hn
  have h2 : l.toFinset ⊆ S := fun p hp => hs p (List.mem_toFinset.mp hp)
  calc l.length = l.toFinset.card := h1.symm
    _ ≤ S.card := Finset.card_le_card h2

theorem get_neighbors_pos_valid {g : Grid} {s b : CellState} {c : Nat}
    (h : (b, c) ∈ get_neighbors g s) : b.pos ∈ validFinset := by
  have hb := (is_reachable_iff g b.x b.y false).mp (get_neighbors_spec h).1
  rw [mem_validFinset]
  exact ⟨hb.1, hb.2.1, hb.2.2.1, hb.2.2.2.1⟩

theorem searchStep_inl_inv {grid : Grid} {start goal : CellState}
    {st st' : SState} (hinv : InvBound start st)
    (h : searchStep grid goal st = .inl st') :
    InvBound start st' ∧ searchMeasure st' < searchMeasure st := by
  obtain ⟨hnodup, hclosedmem, hopnmem⟩ := hinv
  cases hpop : popMin st.opn with
  | none => rw [searchStep_none hpop] at h; simp at h
  | some p =>
    obtain ⟨cur, rest⟩ := p
    rw [searchStep_some hpop] at h
    obtain ⟨hcur_mem, hrest_sub, hlen⟩ := popMin_mem hpop
    by_cases hgoal : cur.state.pos = goal.pos
    · rw [if_pos hgoal] at h; simp at h
    · rw [if_neg hgoal] at h
      by_cases hclosed : cur.state.pos ∈ st.closed
      · rw [if_pos hclosed] at h
        injection h with h
        subst h
        refine ⟨⟨hnodup, hclosedmem, fun nd hnd => hopnmem nd (hrest_sub hnd)⟩,
          ?_⟩
        unfold searchMeasure
        simp only
        omega
      · rw [if_neg hclosed] at h
        injection h with h
        subst h
        have hclosed'_nodup : (cur.state.pos :: st.closed).Nodup :=
          List.nodup_cons.mpr ⟨hclosed, hnodup⟩
        have hclosed'_mem : ∀ p ∈ cur.state.pos :: st.closed,
            p ∈ posBound start := by
          intro p hp
          rcases List.mem_cons.mp hp with hp | hp
          · exact hp ▸ hopnmem cur hcur_mem
          · exact hclosedmem p hp
        have hcard : st.closed.length + 1 ≤ 1297 := by
          have := nodup_length_le hclosed'_nodup hclosed'_mem
          have := posBound_card_le start
          simp only [List.length_cons] at *
          omega
        refine ⟨⟨hclosed'_nodup, hclosed'_mem, ?_⟩, ?_⟩
        · intro nd hnd
          simp only at hnd
          rcases expand_mem hnd with hnd' | ⟨ns, c, hmem, he⟩
          · exact hopnmem nd (hrest_sub hnd')
          · subst he
            exact Finset.mem_insert_of_mem (get_neighbors_pos_valid hmem)
        · have hexp : (expand goal cur (cur.state.pos :: st.closed)
              (get_neighbors grid cur.state)
              ((lookupG st.g_scores cur.state.pos).getD 0) rest
              st.g_scores).1.length ≤ rest.length + 6 :=
            le_trans expand_length
              (by have := get_neighbors_length_le grid cur.state; omega)
          unfold searchMeasure
          simp only [List.length_cons]
          omega

theorem searchLoop_isSome {grid : Grid} {start goal : CellState} :
    ∀ (fuel : Nat) (st : SState), InvBound start st →
      searchMeasure st < fuel →
      (searchLoop grid goal fuel st).isSome = true := by
  intro fuel
  induction fuel with
  | zero => intro st _ h; omega
  | succ n ih =>
    intro st hinv hm
    rw [searchLoop]
    cases hstep : searchStep grid goal st with
    | inr r => simp
    | inl st' =>
      obtain ⟨hinv', hlt⟩ := searchStep_inl_inv hinv hstep
      exact ih st' hinv' (by omega)

/-- C10.  Termination: for every grid, start and goal, the A* loop returns
(either a path or the empty list) within `SEARCH_FUEL` iterations — every
state pushed after the start passes `is_reachable` and therefore lies in the
finite band `[1,18]² × 4` headings, so at most 1297 states are ever expanded
and at most `1 + 6·1297` nodes are ever pushed. -/
theorem c10_search_terminates :
    ∀ (grid : Grid) (start goal : CellState),
      (searchLoop grid goal SEARCH_FUEL (initState start goal)).isSome =
        true := by
  intro grid start goal
  apply searchLoop_isSome
  · refine ⟨List.nodup_nil, by simp [initState], ?_⟩
    intro nd hnd
    simp only [initState, List.mem_singleton] at hnd
    subst hnd
    exact Finset.mem_insert_self _ _
  · show searchMeasure (initState start goal) < SEARCH_FUEL
    unfold searchMeasure initState SEARCH_FUEL
    simp only [List.length_singleton, List.length_nil]
    omega

/-! ### Bullseye phase-1 failure semantics (claim C8) -/

theorem path_to_correct_face_fail {grid : Grid} {o : Obstacle}
    {cur : CellState}
    (h : ∀ (r : Bool), ∀ cand ∈ Obstacle.get_valid_viewing_positions o grid r
      true, (AStar.search grid cur cand).1 = []) :
    path_to_correct_face grid o cur =
      (none, [], ["SNAP_FAILED" ++ toString o.obstacle_id]) := by
  unfold path_to_correct_face
  have hnone : ([false, true].findSome? fun (retrying : Bool) =>
      (o.get_valid_viewing_positions grid retrying true).findSome? fun cand =>
        let path := (AStar.search grid cur cand).1
        if path.isEmpty then none else some (cand, path)) = none := by
    rw [List.findSome?_eq_none_iff]
    intro r _
    rw [List.findSome?_eq_none_iff]
    intro cand hcand
    simp only [h r cand hcand, List.isEmpty_nil, if_true]
  simp only [hnone]

theorem find?_update_isSome {l : List Obstacle} {oid : Int} {d : Direction}
    (h : (l.find? (fun o => o.obstacle_id = oid)).isSome = true) :
    ((updateObstacleDirection l oid d).find?
      (fun o => o.obstacle_id = oid)).isSome = true := by
  induction l with
  | nil => simp [List.find?] at h
  | cons o rest ih =>
    by_cases ho : o.obstacle_id = oid
    · simp [updateObstacleDirection, ho, List.find?]
    · rw [List.find?] at h
      simp only [updateObstacleDirection, if_neg ho]
      rw [List.find?]
      have hd : decide (o.obstacle_id = oid) = false := by simpa using ho
      simp only [hd] at h ⊢
      exact ih h

theorem found_obstacle_id {l : List Obstacle} {oid : Int}
    (h : (l.find? (fun o => o.obstacle_id = oid)).isSome = true) :
    ((l.find? (fun o => o.obstacle_id = oid)).getD
      defaultObstacle).obstacle_id = oid := by
  obtain ⟨o₁, ho⟩ := Option.isSome_iff_exists.mp h
  rw [ho]
  simpa using List.find?_some ho

theorem directionOf?_valid {d : Int}
    (h : d = 0 ∨ d = 2 ∨ d = 4 ∨ d = 6) :
    directionOf? d = some (directionOf d) := by
  rcases h with h | h | h | h <;> subst h <;> rfl

/-- C8.  When no viewing candidate of the (face-corrected) bullseye obstacle
is A*-reachable from the live pose for either retry round, `handle` returns
the live pose as the resolved pose, phase-1 path `[live]`, phase-1 commands
`["SNAP_FAILED{id}"]`, sets `skipped_obstacle`, and phase 2 re-plans from the
original live pose.  The corrected direction must be a valid enum value, or
`Direction(new_direction)` raises before phase 1 starts. -/
theorem c8_phase1_failure (grid : Grid) (oid ndir rx ry rdir : Int)
    (rem : List Int)
    (h0 : ndir = 0 ∨ ndir = 2 ∨ ndir = 4 ∨ ndir = 6)
    (h1 : (grid.obstacles.find? (fun o => o.obstacle_id = oid)).isSome = true)
    (h2 : ∀ (r : Bool), ∀ cand ∈ Obstacle.get_valid_viewing_positions
        (((⟨updateObstacleDirection grid.obstacles oid (directionOf ndir)⟩ :
          Grid)).obstacles.find? (fun o => o.obstacle_id = oid)
          |>.getD defaultObstacle)
        ⟨updateObstacleDirection grid.obstacles oid (directionOf ndir)⟩ r true,
        (AStar.search ⟨updateObstacleDirection grid.obstacles oid
          (directionOf ndir)⟩ ⟨rx, ry, directionOf rdir, -1, 0⟩ cand).1 = []) :
    ∃ res, handle grid oid ndir rx ry rdir rem = .ok res ∧
      res.skipped_obstacle = true ∧
      res.resolved_position =
        CellState.get_dict ⟨rx, ry, directionOf rdir, -1, 0⟩ ∧
      res.phase1_path = [CellState.get_dict ⟨rx, ry, directionOf rdir, -1, 0⟩] ∧
      res.phase1_commands = ["SNAP_FAILED" ++ toString oid] ∧
      (let grid' : Grid :=
        ⟨updateObstacleDirection grid.obstacles oid (directionOf ndir)⟩
      let p2 := reroute_remaining grid' rx ry (directionOf rdir).toInt
        (rem.filterMap fun oid' => if oid' = oid then none
          else grid'.obstacles.find? (fun o => o.obstacle_id = oid'))
      res.phase2_path = p2.path ∧ res.phase2_commands = p2.commands ∧
        res.phase2_distance = p2.distance) := by
  obtain ⟨o₀, hfind⟩ := Option.isSome_iff_exists.mp h1
  have hid : (((⟨updateObstacleDirection grid.obstacles oid
      (directionOf ndir)⟩ : Grid)).obstacles.find?
      (fun o => o.obstacle_id = oid) |>.getD defaultObstacle).obstacle_id =
      oid :=
    found_obstacle_id (find?_update_isSome h1)
  simp only [handle, hfind, directionOf?_valid h0, path_to_correct_face_fail h2]
  refine ⟨_, rfl, rfl, rfl, rfl, ?_, rfl, rfl, rfl⟩
  rw [hid]

/-- C8 witness: the bullseye obstacle sits at (1, 1) and its corrected face
is SOUTH, so every candidate (at `y ≤ -2`) is out of bounds and both retry
rounds fail; the live pose is (5, 5, N) and the obstacle itself is the only
remaining one, so phase 2 degenerates to `["FIN"]`. -/
theorem c8_phase1_failure_witness :
    ∃ res, handle ⟨[⟨1, 1, .NORTH, 7⟩]⟩ 7 4 5 5 0 [7] = .ok res ∧
      res.skipped_obstacle = true ∧
      res.resolved_position =
        CellState.get_dict ⟨5, 5, directionOf 0, -1, 0⟩ ∧
      res.phase1_path = [CellState.get_dict ⟨5, 5, directionOf 0, -1, 0⟩] ∧
      res.phase1_commands = ["SNAP_FAILED" ++ toString (7 : Int)] ∧
      (let grid' : Grid :=
        ⟨updateObstacleDirection [⟨1, 1, .NORTH, 7⟩] 7 (directionOf 4)⟩
      let p2 := reroute_remaining grid' 5 5 (directionOf 0).toInt
        (([7] : List Int).filterMap fun oid' => if oid' = 7 then none
          else grid'.obstacles.find? (fun o => o.obstacle_id = oid'))
      res.phase2_path = p2.path ∧ res.phase2_commands = p2.commands ∧
        res.phase2_distance = p2.distance) :=
  c8_phase1_failure ⟨[⟨1, 1, .NORTH, 7⟩]⟩ 7 4 5 5 0 [7] (by decide) (by decide)
    (by decide)

/-! ### Compression: run decomposition facts (claim C7) -/

theorem parse_chunk_fin :
    ∀ v : Fin 91,
      parse ("FW" ++ format2 v.val) = ("FW", v.val) ∧
      parse ("BW" ++ format2 v.val) = ("BW", v.val) ∧
      ("FW" ++ format2 v.val).take 2 = "FW" ∧
      ("BW" ++ format2 v.val).take 2 = "BW" := by decide

theorem parse_chunk {k : String} (hk : k = "FW" ∨ k = "BW") {v : Nat}
    (hv : v ≤ 90) :
    parse (k ++ format2 v) = (k, v) ∧ (k ++ format2 v).take 2 = k := by
  have h := parse_chunk_fin ⟨v, by omega⟩
  rcases hk with hk | hk <;> subst hk
  · exact ⟨h.1, h.2.2.1⟩
  · exact ⟨h.2.1, h.2.2.2⟩

theorem parse_chunk90 {k : String} (hk : k = "FW" ∨ k = "BW") :
    parse (k ++ "90") = (k, 90) := by
  rcases hk with hk | hk <;> subst hk <;> decide

theorem flushPrev_eq_render (prev : String) (acc : Nat) :
    flushPrev prev acc = render (emitTok prev acc) := by
  unfold flushPrev emitTok
  by_cases h : ((parse prev).1 = "FW" || (parse prev).1 = "BW") = true
  · rw [if_pos h, if_pos h]
    rfl
  · rw [if_neg h, if_neg h]
    rfl

theorem compressGo_eq_render :
    ∀ (cs : List String) (prev : String) (acc : Nat),
      compressGo prev acc cs = (runsGo prev acc cs).flatMap render := by
  intro cs
  induction cs with
  | nil =>
    intro prev acc
    simp [compressGo, runsGo, flushPrev_eq_render]
  | cons c rest ih =>
    intro prev acc
    rw [compressGo, runsGo]
    split
    · rw [ih]
    · rw [List.flatMap_cons, ih, flushPrev_eq_render]

theorem compress_eq_render_runs (cs : List String) :
    compress_commands cs = (runs cs).flatMap render := by
  cases cs with
  | nil => rfl
  | cons c rest =>
    rw [compress_commands, runs]
    exact compressGo_eq_render rest c (parse c).2

theorem flushChunksGo_congr (k : String) :
    ∀ (fuel₁ : Nat) (fuel₂ v : Nat), v ≤ fuel₁ + 90 → v ≤ fuel₂ + 90 →
      flushChunksGo k fuel₁ v = flushChunksGo k fuel₂ v := by
  intro fuel₁
  induction fuel₁ with
  | zero =>
    intro fuel₂ v h1 h2
    cases fuel₂ with
    | zero => rfl
    | succ m =>
      rw [flushChunksGo, flushChunksGo]
      have h90 : ¬90 < v := by omega
      rw [if_neg h90]
  | succ n ih =>
    intro fuel₂ v h1 h2
    cases fuel₂ with
    | zero =>
      rw [flushChunksGo, flushChunksGo]
      have h90 : ¬90 < v := by omega
      rw [if_neg h90]
    | succ m =>
      rw [flushChunksGo, flushChunksGo]
      by_cases hv : 90 < v
      · rw [if_pos hv, if_pos hv, ih m (v - 90) (by omega) (by omega)]
      · rw [if_neg hv, if_neg hv]

/-- The loop-shaped unfolding of `flushChunks`. -/
theorem flushChunks_eq (k : String) (v : Nat) :
    flushChunks k v =
      (if 90 < v then (k ++ "90") :: flushChunks k (v - 90)
       else if 0 < v then [k ++ format2 v] else []) := by
  unfold flushChunks
  cases hv : v with
  | zero => rfl
  | succ n =>
    rw [flushChunksGo]
    by_cases h90 : 90 < n + 1
    · rw [if_pos h90, if_pos h90,
        flushChunksGo_congr k n (n + 1 - 90) (n + 1 - 90) (by omega) (by omega)]
    · rw [if_neg h90, if_neg h90]

/-- Consuming a whole chunk block: when the pending run has kind `k` and the
continuation grows the pending total, the accumulated value absorbs the whole
block total. -/
theorem runsGo_chunks {k : String} (hk : k = "FW" ∨ k = "BW") :
    ∀ (T : Nat), 0 < T → ∀ (tail : List String) (res : List Rtok),
      (∀ (c'' : String) (acc'' : Nat), (parse c'').1 = k →
        runsGo c'' acc'' tail = .straight k acc'' :: res) →
      ∀ (c' : String) (acc' : Nat), (parse c').1 = k →
        runsGo c' acc' (flushChunks k T ++ tail) =
          .straight k (acc' + T) :: res := by
  intro T
  induction T using Nat.strong_induction_on with
  | _ T ih =>
    intro hT tail res hcont c' acc' hc'
    rw [flushChunks_eq]
    by_cases h90 : 90 < T
    · rw [if_pos h90]
      have hp90 : parse (k ++ "90") = (k, 90) := parse_chunk90 hk
      rw [List.cons_append, runsGo]
      rw [if_pos (by rw [hp90, hc']; exact ⟨rfl, by omega⟩)]
      rw [hp90]
      have hrec := ih (T - 90) (by omega) (by omega) tail res hcont (k ++ "90")
        (acc' + 90) (by rw [hp90])
      have harith : acc' + 90 + (T - 90) = acc' + T := by omega
      rw [harith] at hrec
      exact hrec
    · rw [if_neg h90, if_pos hT]
      have hpv : parse (k ++ format2 T) = (k, T) := (parse_chunk hk (by omega)).1
      rw [List.singleton_append, runsGo]
      rw [if_pos (by rw [hpv, hc']; exact ⟨rfl, hT⟩)]
      rw [hpv]
      exact hcont (k ++ format2 T) (acc' + T) (by rw [hpv])

/-- `emitTok` of a straight-kind pending token. -/
theorem emitTok_straight {c : String} {k : String} (hk : k = "FW" ∨ k = "BW")
    (hc : (parse c).1 = k) (acc : Nat) : emitTok c acc = .straight k acc := by
  unfold emitTok
  rw [hc]
  rcases hk with hk | hk <;> subst hk <;> rfl

/-- `emitTok` of a non-straight pending token. -/
theorem emitTok_verb {c : String}
    (hc : ¬((parse c).1 = "FW" ∨ (parse c).1 = "BW")) (acc : Nat) :
    emitTok c acc = .verb c := by
  unfold emitTok
  rw [if_neg (by simpa using hc)]

/-- The parse kind of a token is FW/BW exactly when its two-character prefix
is. -/
theorem parseKind_straight_iff (c : String) :
    ((parse c).1 = "FW" ∨ (parse c).1 = "BW") ↔
      (c.take 2 = "FW" ∨ c.take 2 = "BW") := by
  unfold parse
  by_cases h : (c.take 2 = "FW" || c.take 2 = "BW") = true
  · rw [if_pos h]
  · rw [if_neg h]
    simp only [Bool.or_eq_true, decide_eq_true_eq] at h
    push_neg at h
    constructor
    · rintro (hc | hc) <;> subst hc <;> exfalso
      · exact h.1 rfl
      · exact h.2 rfl
    · rintro (hc | hc)
      · exact absurd hc h.1
      · exact absurd hc h.2

/-- A non-straight token has value 0. -/
theorem parse_verb_val {c : String}
    (hc : ¬(c.take 2 = "FW" ∨ c.take 2 = "BW")) : parse c = (c, 0) := by
  unfold parse
  rw [if_neg (by simpa using hc)]

/-- Verbatim tokens of a well-formed run list cannot merge into any head. -/
theorem verb_compat {s : String}
    (hs : ¬(s.take 2 = "FW" ∨ s.take 2 = "BW")) (rs : List Rtok)
    (hgood : GoodRuns rs) : Compat s rs := by
  cases rs with
  | nil => trivial
  | cons rt rs' =>
    cases rt with
    | verb _ => trivial
    | straight k' _ =>
      obtain ⟨hk', _, _, _⟩ := hgood
      show (parse s).1 ≠ k'
      rw [(parse_verb_val hs)]
      intro he
      apply hs
      rcases hk' with hk' | hk' <;> rw [← he] at hk' <;> subst hk'
      · exact Or.inl rfl
      · exact Or.inr rfl

/-- A fresh chunk block after a non-merging pending token. -/
theorem runsGo_block_start {k : String} (hk : k = "FW" ∨ k = "BW") :
    ∀ (T : Nat), 0 < T → ∀ (tail : List String) (res : List Rtok),
      (∀ (c'' : String) (acc'' : Nat), (parse c'').1 = k →
        runsGo c'' acc'' tail = .straight k acc'' :: res) →
      ∀ (c : String) (acc : Nat), (parse c).1 ≠ k →
        runsGo c acc (flushChunks k T ++ tail) =
          emitTok c acc :: .straight k T :: res := by
  intro T hT tail res hcont c acc hc
  rw [flushChunks_eq]
  by_cases h90 : 90 < T
  · rw [if_pos h90]
    have hp90 : parse (k ++ "90") = (k, 90) := parse_chunk90 hk
    rw [List.cons_append, runsGo]
    rw [if_neg (by rw [hp90]; rintro ⟨he, _⟩; exact hc he.symm)]
    congr 1
    have := runsGo_chunks hk (T - 90) (by omega) tail res hcont (k ++ "90") 90
      (by rw [hp90])
    rw [hp90]
    simp only at this ⊢
    rw [this]
    congr 2
    omega
  · rw [if_neg h90, if_pos hT]
    have hpv : parse (k ++ format2 T) = (k, T) := (parse_chunk hk (by omega)).1
    rw [List.singleton_append, runsGo]
    rw [if_neg (by rw [hpv]; rintro ⟨he, _⟩; exact hc he.symm)]
    rw [hpv]
    congr 1
    exact hcont (k ++ format2 T) T (by rw [hpv])

/-- Boundary lemma: running the state machine over the rendering of a
well-formed run list, with a non-merging pending token, emits the pending
run followed by the run list itself. -/
theorem runsGo_render :
    ∀ (rs : List Rtok), GoodRuns rs → ∀ (c : String) (acc : Nat),
      Compat c rs →
      runsGo c acc (rs.flatMap render) = emitTok c acc :: rs := by
  intro rs
  induction rs with
  | nil =>
    intro _ c acc _
    rfl
  | cons rt rs' ih =>
    intro hgood c acc hcompat
    cases rt with
    | verb s =>
      obtain ⟨hs, hgood'⟩ := hgood
      rw [List.flatMap_cons]
      show runsGo c acc (s :: rs'.flatMap render) = _
      rw [runsGo]
      have hps : parse s = (s, 0) := parse_verb_val hs
      rw [if_neg (by rw [hps]; rintro ⟨_, h0⟩; exact absurd h0 (by omega))]
      congr 1
      rw [hps]
      have := ih hgood' s 0 (verb_compat hs rs' hgood')
      simp only at this ⊢
      rw [this, emitTok_verb]
      rw [parseKind_straight_iff]
      exact hs
    | straight k T =>
      obtain ⟨hk, hT, hns, hgood'⟩ := hgood
      rw [List.flatMap_cons]
      show runsGo c acc (flushChunks k T ++ rs'.flatMap render) = _
      refine runsGo_block_start hk T hT _ rs' ?_ c acc hcompat
      intro c'' acc'' hc''
      have hcompat'' : Compat c'' rs' := by
        cases rs' with
        | nil => trivial
        | cons rt2 rs2 =>
          cases rt2 with
          | verb _ => trivial
          | straight k2 _ =>
            show (parse c'').1 ≠ k2
            rw [hc'']
            exact fun he => hns (he ▸ rfl)
      rw [ih hgood' c'' acc'' hcompat'', emitTok_straight hk hc'']

/-- Round trip: the run decomposition of the rendering of a well-formed run
list is the list itself. -/
theorem runs_render {rs : List Rtok} (h : GoodRuns rs) :
    runs (rs.flatMap render) = rs := by
  cases rs with
  | nil => rfl
  | cons rt rs' =>
    cases rt with
    | verb s =>
      obtain ⟨hs, hgood'⟩ := h
      rw [List.flatMap_cons]
      show runs (s :: rs'.flatMap render) = _
      rw [runs]
      have hps : parse s = (s, 0) := parse_verb_val hs
      rw [hps]
      simp only
      rw [runsGo_render rs' hgood' s 0 (verb_compat hs rs' hgood'),
        emitTok_verb]
      rw [parseKind_straight_iff]
      exact hs
    | straight k T =>
      obtain ⟨hk, hT, hns, hgood'⟩ := h
      rw [List.flatMap_cons]
      have hcont : ∀ (c'' : String) (acc'' : Nat), (parse c'').1 = k →
          runsGo c'' acc'' (rs'.flatMap render) = .straight k acc'' :: rs' := by
        intro c'' acc'' hc''
        have hcompat'' : Compat c'' rs' := by
          cases rs' with
          | nil => trivial
          | cons rt2 rs2 =>
            cases rt2 with
            | verb _ => trivial
            | straight k2 _ =>
              show (parse c'').1 ≠ k2
              rw [hc'']
              exact fun he => hns (he ▸ rfl)
        rw [runsGo_render rs' hgood' c'' acc'' hcompat'',
          emitTok_straight hk hc'']
      rw [show (render (.straight k T)) = flushChunks k T from rfl]
      rw [flushChunks_eq]
      by_cases h90 : 90 < T
      · rw [if_pos h90]
        have hp90 : parse (k ++ "90") = (k, 90) := parse_chunk90 hk
        rw [List.cons_append, runs, hp90]
        simp only
        have := runsGo_chunks hk (T - 90) (by omega) (rs'.flatMap render) rs'
          hcont (k ++ "90") 90 (by rw [hp90])
        rw [this]
        congr 2
        omega
      · rw [if_neg h90, if_pos hT]
        have hpv : parse (k ++ format2 T) = (k, T) := (parse_chunk hk (by omega)).1
        rw [List.singleton_append, runs, hpv]
        simp only
        exact hcont (k ++ format2 T) T (by rw [hpv])

/-- The run decomposition of a positive-token list is well-formed. -/
theorem runsGo_good :
    ∀ (cs : List String) (prev : String) (acc : Nat),
      (∀ c ∈ cs, WFtok c) → WFtok prev →
      (((parse prev).1 = "FW" ∨ (parse prev).1 = "BW") → 0 < acc) →
      GoodRuns (runsGo prev acc cs) ∧
      (∀ k, (parse prev).1 ≠ k → notSameStraight k (runsGo prev acc cs)) := by
  intro cs
  induction cs with
  | nil =>
    intro prev acc hwf hwfp hacc
    rw [runsGo]
    by_cases hkind : ((parse prev).1 = "FW" ∨ (parse prev).1 = "BW")
    · constructor
      · rw [emitTok_straight hkind rfl]
        exact ⟨hkind, hacc hkind, trivial, trivial⟩
      · intro k hk
        rw [emitTok_straight hkind rfl]
        exact hk
    · constructor
      · rw [emitTok_verb hkind]
        refine ⟨?_, trivial⟩
        rw [← parseKind_straight_iff]
        exact hkind
      · intro k hk
        rw [emitTok_verb hkind]
        trivial
  | cons c rest ih =>
    intro prev acc hwf hwfp hacc
    rw [runsGo]
    by_cases hmerge : ((parse c).1 = (parse prev).1 ∧ 0 < (parse c).2)
    · rw [if_pos hmerge]
      have hrec := ih c (acc + (parse c).2)
        (fun x hx => hwf x (List.mem_cons_of_mem _ hx))
        (hwf c (List.mem_cons_self _ _))
        (fun _ => Nat.lt_of_lt_of_le hmerge.2 (Nat.le_add_left _ _))
      refine ⟨hrec.1, fun k hk => hrec.2 k ?_⟩
      rw [hmerge.1]
      exact hk
    · rw [if_neg hmerge]
      have hrec := ih c (parse c).2
        (fun x hx => hwf x (List.mem_cons_of_mem _ hx))
        (hwf c (List.mem_cons_self _ _))
        (fun hkc => (hwf c (List.mem_cons_self _ _)
          ((parseKind_straight_iff c).mp hkc)).2)
      constructor
      · by_cases hkind : ((parse prev).1 = "FW" ∨ (parse prev).1 = "BW")
        · rw [emitTok_straight hkind rfl]
          refine ⟨hkind, hacc hkind, ?_, hrec.1⟩
          apply hrec.2
          intro he
          apply hmerge
          refine ⟨he, ?_⟩
          have hck : ((parse c).1 = "FW" ∨ (parse c).1 = "BW") := by
            rw [he]
            exact hkind
          exact (hwf c (List.mem_cons_self _ _)
            ((parseKind_straight_iff c).mp hck)).2
        · rw [emitTok_verb hkind]
          refine ⟨?_, hrec.1⟩
          rw [← parseKind_straight_iff]
          exact hkind
      · intro k hk
        by_cases hkind : ((parse prev).1 = "FW" ∨ (parse prev).1 = "BW")
        · rw [emitTok_straight hkind rfl]
          exact hk
        · rw [emitTok_verb hkind]
          trivial

theorem runs_good {cs : List String} (h : WFpos cs) : GoodRuns (runs cs) := by
  cases cs with
  | nil => trivial
  | cons c rest =>
    rw [runs]
    exact (runsGo_good rest c (parse c).2
      (fun x hx => h x (List.mem_cons_of_mem _ hx))
      (h c (List.mem_cons_self _ _))
      (fun hkc => (h c (List.mem_cons_self _ _)
        ((parseKind_straight_iff c).mp hkc)).2)).1

/-- Every token of a chunk block is FW/BW-prefixed with value in `[1, 90]`. -/
theorem flushChunks_mem {k : String} (hk : k = "FW" ∨ k = "BW") :
    ∀ (v : Nat) (t : String), t ∈ flushChunks k v →
      (t.take 2 = "FW" ∨ t.take 2 = "BW") ∧
      1 ≤ (parse t).2 ∧ (parse t).2 ≤ 90 := by
  intro v
  induction v using Nat.strong_induction_on with
  | _ v ih =>
    intro t ht
    rw [flushChunks_eq] at ht
    by_cases h90 : 90 < v
    · rw [if_pos h90] at ht
      rcases List.mem_cons.mp ht with ht | ht
      · subst ht
        have h1 := parse_chunk90 hk
        have h2 : (k ++ "90") = (k ++ format2 90) := rfl
        have h3 := (parse_chunk hk (by omega : (90 : Nat) ≤ 90)).2
        constructor
        · rw [h2, h3]
          exact hk
        · rw [h1]
          exact ⟨by omega, by omega⟩
      · exact ih (v - 90) (by omega) t ht
    · rw [if_neg h90] at ht
      by_cases h0 : 0 < v
      · rw [if_pos h0] at ht
        rcases List.mem_singleton.mp ht with ht
        subst ht
        have h1 := (parse_chunk hk (by omega : v ≤ 90)).1
        have h3 := (parse_chunk hk (by omega : v ≤ 90)).2
        constructor
        · rw [h3]
          exact hk
        · rw [h1]
          exact ⟨by omega, by omega⟩
      · rw [if_neg h0] at ht
        simp at ht

/-- Every run the state machine produces is an `emitTok`. -/
theorem runsGo_mem_emit :
    ∀ (cs : List String) (prev : String) (acc : Nat) (rt : Rtok),
      rt ∈ runsGo prev acc cs → ∃ p a, rt = emitTok p a := by
  intro cs
  induction cs with
  | nil =>
    intro prev acc rt hrt
    rw [runsGo] at hrt
    exact ⟨prev, acc, (List.mem_singleton.mp hrt)⟩
  | cons c rest ih =>
    intro prev acc rt hrt
    rw [runsGo] at hrt
    split at hrt
    · exact ih c _ rt hrt
    · rcases List.mem_cons.mp hrt with hrt | hrt
      · exact ⟨prev, acc, hrt⟩
      · exact ih c _ rt hrt

theorem runs_mem_emit {cs : List String} {rt : Rtok} (h : rt ∈ runs cs) :
    ∃ p a, rt = emitTok p a := by
  cases cs with
  | nil => simp [runs] at h
  | cons c rest => exact runsGo_mem_emit rest c (parse c).2 rt h

/-- No FW/BW token of the compressed output exceeds 90 (or is zero). -/
theorem compress_straight_bound (cs : List String) (t : String)
    (ht : t ∈ compress_commands cs)
    (htk : t.take 2 = "FW" ∨ t.take 2 = "BW") :
    1 ≤ (parse t).2 ∧ (parse t).2 ≤ 90 := by
  rw [compress_eq_render_runs] at ht
  rw [List.mem_flatMap] at ht
  obtain ⟨rt, hrt, htin⟩ := ht
  obtain ⟨p, a, hpa⟩ := runs_mem_emit hrt
  cases rt with
  | straight k v =>
    have hk : k = "FW" ∨ k = "BW" := by
      unfold emitTok at hpa
      split at hpa
      case isTrue hcond =>
        injection hpa with h1 _
        rw [h1]
        simpa using hcond
      case isFalse => exact absurd hpa (by simp)
    exact (flushChunks_mem hk v t htin).2
  | verb s =>
    exfalso
    rcases List.mem_singleton.mp htin with rfl
    unfold emitTok at hpa
    split at hpa
    case isTrue => exact absurd hpa (by simp)
    case isFalse hcond =>
      injection hpa with h1
      subst h1
      rw [← parseKind_straight_iff] at htk
      simp only [Bool.or_eq_true, decide_eq_true_eq] at hcond
      rcases htk with htk | htk <;> rw [htk] at hcond <;> simp at hcond

/-- C7 counterexample.  A zero-valued straight token breaks a run:
`["FW10","FW00","FW10"]` compresses to `["FW10","FW10"]`, whose compression
is `["FW20"]`, so compression of the output is not a fixed point. -/
theorem c7_counterexample :
    compress_commands ["FW10", "FW00", "FW10"] = ["FW10", "FW10"] ∧
    compress_commands (compress_commands ["FW10", "FW00", "FW10"]) =
      ["FW20"] ∧
    compress_commands (compress_commands ["FW10", "FW00", "FW10"]) ≠
      compress_commands ["FW10", "FW00", "FW10"] := by
  exact ⟨rfl, rfl, by decide⟩

/-- C7 (amended).  For command lists whose FW/BW tokens all carry positive
values, compression is a fixed point of itself; and unconditionally no FW/BW
token of the output carries a value outside `[1, 90]`. -/
theorem c7_compress_spec :
    ∀ cs : List String,
      (WFpos cs →
        compress_commands (compress_commands cs) = compress_commands cs) ∧
      (∀ t ∈ compress_commands cs, (t.take 2 = "FW" ∨ t.take 2 = "BW") →
        1 ≤ (parse t).2 ∧ (parse t).2 ≤ 90) := by
  intro cs
  constructor
  · intro hwf
    conv_lhs => rw [compress_eq_render_runs cs]
    rw [compress_eq_render_runs ((runs cs).flatMap render),
      runs_render (runs_good hwf), compress_eq_render_runs cs]
  · exact fun t ht htk => compress_straight_bound cs t ht htk

/-- C7 witness: a tape with two mergeable straights (splitting at 90), a turn
and `FIN`. -/
theorem c7_compress_spec_witness :
    compress_commands (compress_commands ["FW50", "FW60", "FR90", "FIN"]) =
      compress_commands ["FW50", "FW60", "FR90", "FIN"] :=
  (c7_compress_spec ["FW50", "FW60", "FR90", "FIN"]).1 (by decide)

end MDP
